import Mathlib

/-!
Verification development for the frame-oriented trajectory conversion pipeline
of chushihua.py: column/label readers, the consistency validator, the plain and
extended XYZ serializers, and the extended-format splitter.

Strings are modelled as lists of characters (`Str`); whole files are modelled
as their list of lines.  Python exceptions are modelled with explicit error
results.  Every definition mirrors the corresponding source function.
-/

namespace Chushihua

abbrev Str := List Char

def str (s : String) : Str := s.data

/-- Python str.strip over a char list: drop leading and trailing whitespace. -/
def pyStrip (s : Str) : Str :=
  (s.dropWhile Char.isWhitespace).rdropWhile Char.isWhitespace

/-- Python str.isdigit over a char list: nonempty and all digits. -/
def pyIsDigitStr (s : Str) : Bool :=
  !s.isEmpty && s.all Char.isDigit

/-- Python str.split() with no argument: split on whitespace runs, no empty
tokens; `cur` accumulates the current token in reverse. -/
def pySplitAux (cur : Str) : Str → List Str
  | [] => if cur = [] then [] else [cur.reverse]
  | c :: cs =>
    if c.isWhitespace then
      if cur = [] then pySplitAux [] cs else cur.reverse :: pySplitAux [] cs
    else pySplitAux (c :: cur) cs

def pySplit (s : Str) : List Str := pySplitAux [] s

/-- Python sep.join over char lists. -/
def strJoin (sep : Str) : List Str → Str
  | [] => []
  | [x] => x
  | x :: y :: ys => x ++ sep ++ strJoin sep (y :: ys)

/-- Decimal digit character for a value below ten. -/
def digitChar (d : Nat) : Char := Char.ofNat (48 + d)

/-- Decimal rendering helper, accumulating digits from the low end; the first
argument is fuel bounding the number of divisions. -/
def natStrAux : Nat → Nat → Str → Str
  | 0, _, acc => acc
  | _ + 1, 0, acc => acc
  | fuel + 1, n + 1, acc => natStrAux fuel ((n + 1) / 10) (digitChar ((n + 1) % 10) :: acc)

/-- Decimal rendering of a natural number, modelling Python f-string of an int. -/
def natStr (n : Nat) : Str :=
  if n = 0 then [digitChar 0] else natStrAux n n []

/-- Split file content into lines at newline characters; empty content has no lines. -/
def splitNlAux : Str → List Str
  | [] => [[]]
  | c :: cs =>
    if c = '\n' then [] :: splitNlAux cs
    else
      match splitNlAux cs with
      | [] => [[c]]
      | l :: ls => (c :: l) :: ls

def fileLines (s : Str) : List Str :=
  if s = [] then [] else splitNlAux s

/-- Word character as in the regex class used by the source: alphanumeric or underscore. -/
def isWordChar (c : Char) : Bool := c.isAlphanum || c = '_'

/-! ## Error model -/

inductive PyErr where
  | indexError (msg : Str)
  | valueError (msg : Str)
deriving DecidableEq, Repr

instance {ε α : Type} [DecidableEq ε] [DecidableEq α] : DecidableEq (Except ε α) := fun x y =>
  match x, y with
  | Except.error e, Except.error f =>
    if h : e = f then isTrue (congrArg Except.error h)
    else isFalse (fun hh => h (by cases hh; rfl))
  | Except.error _, Except.ok _ => isFalse (fun hh => Except.noConfusion hh)
  | Except.ok _, Except.error _ => isFalse (fun hh => Except.noConfusion hh)
  | Except.ok a, Except.ok b =>
    if h : a = b then isTrue (congrArg Except.ok h)
    else isFalse (fun hh => h (by cases hh; rfl))

/-! ## read_file / read_label_file

A file is modelled by its list of lines (already without newline characters);
an absent file is `none`. -/

def read_file (lines : List Str) : List (List Str) :=
  lines.foldl (fun data line =>
    let s := pyStrip line
    if s ≠ [] then data ++ [pySplit s] else data) []

def read_label_file (file : Option (List Str)) : Option (List Str) :=
  match file with
  | none => none
  | some lines =>
    some (lines.foldl (fun data line =>
      let s := pyStrip line
      if s ≠ [] then data ++ [s] else data) [])

/-! ## validate_data_consistency

The validator accumulates violation strings, prints them and raises a generic
ValueError when any check fails.  Two crash modes of the source are modelled
explicitly: `len(None)` for an absent label sequence raises TypeError, and
indexing `coordinates[i]` or `forces[i]` past the end raises IndexError. -/

def count_msg (field : String) (n m : Nat) : Str :=
  str "atom_types（" ++ natStr n ++ str "）和 " ++ str field ++ str "（" ++ natStr m
    ++ str "）的帧数不一致。"

def label_count_msg (name : Str) (m n : Nat) : Str :=
  str "标签 \x27" ++ name ++ str "\x27（" ++ natStr m ++ str "）和 atom_types（" ++ natStr n
    ++ str "）的帧数不一致。"

def frame_coord_msg (i expected got : Nat) : Str :=
  str "第 " ++ natStr i ++ str " 帧：预期 " ++ natStr expected ++ str " 个坐标值，但得到了 "
    ++ natStr got ++ str " 个。"

def frame_force_msg (i expected got : Nat) : Str :=
  str "第 " ++ natStr i ++ str " 帧：预期 " ++ natStr expected ++ str " 个力值，但得到了 "
    ++ natStr got ++ str " 个。"

inductive ValidateResult where
  | ok
  | fail (printed : List Str)
  | typeErr
  | idxErr
deriving DecidableEq, Repr

/-- Frame-count checks on coordinates, energies, forces and box (lines 115-122). -/
def countErrs (n : Nat) (coordinates energies : List (List Str))
    (forces box : Option (List (List Str))) : List Str :=
  (if coordinates.length ≠ n then [count_msg "coordinates" n coordinates.length] else []) ++
  (if energies.length ≠ n then [count_msg "energies" n energies.length] else []) ++
  (match forces with
   | some fs => if fs.length ≠ n then [count_msg "forces" n fs.length] else []
   | none => []) ++
  (match box with
   | some b => if b.length ≠ n then [count_msg "box" n b.length] else []
   | none => [])

/-- Label frame-count loop (lines 123-125); `none` models the TypeError raised
by `len(None)` when a label sequence is absent. -/
def labelErrs (n : Nat) : List (Str × Option (List Str)) → Option (List Str)
  | [] => some []
  | (_, none) :: _ => none
  | (name, some vs) :: rest =>
    (labelErrs n rest).map (fun es =>
      (if vs.length ≠ n then [label_count_msg name vs.length n] else []) ++ es)

/-- Per-frame length loop (lines 127-135); `none` models the IndexError raised
by `coordinates[i]` or `forces[i]` when those rows are missing. -/
def frameErrsAux (atom_types coordinates : List (List Str))
    (forces : Option (List (List Str))) : List Nat → Option (List Str)
  | [] => some []
  | i :: is =>
    if coordinates.length ≤ i then none
    else
      let na := (atom_types.getD i []).length
      let e1 := if (coordinates.getD i []).length ≠ na * 3 then
        [frame_coord_msg i (na * 3) (coordinates.getD i []).length] else []
      match forces with
      | some fs =>
        if fs.length ≤ i then none
        else
          let e2 := if (fs.getD i []).length ≠ na * 3 then
            [frame_force_msg i (na * 3) (fs.getD i []).length] else []
          (frameErrsAux atom_types coordinates forces is).map (fun es => e1 ++ e2 ++ es)
      | none => (frameErrsAux atom_types coordinates none is).map (fun es => e1 ++ es)

def validate_data_consistency (atom_types coordinates energies : List (List Str))
    (forces box : Option (List (List Str)))
    (labels : List (Str × Option (List Str))) : ValidateResult :=
  match labelErrs atom_types.length labels with
  | none => .typeErr
  | some le =>
    match frameErrsAux atom_types coordinates forces (List.range atom_types.length) with
    | none => .idxErr
    | some fe =>
      if countErrs atom_types.length coordinates energies forces box ++ le ++ fe = [] then .ok
      else .fail (countErrs atom_types.length coordinates energies forces box ++ le ++ fe)

/-! ## generate_xyz_content (lines 143-173) -/

def missing_energy_msg (i : Nat) : Str := str "第 " ++ natStr i ++ str " 帧：缺少能量数据。"
def missing_coord_msg (i : Nat) : Str := str "第 " ++ natStr i ++ str " 帧：缺少坐标数据。"
def missing_atom_msg (i j : Nat) : Str :=
  str "第 " ++ natStr i ++ str " 帧，第 " ++ natStr j ++ str " 个原子：缺少原子类型数据。"
def incomplete_coord_msg (i j : Nat) : Str :=
  str "第 " ++ natStr i ++ str " 帧，第 " ++ natStr j ++ str " 个原子：坐标数据不完整。"
def incomplete_force_msg (i j : Nat) : Str :=
  str "第 " ++ natStr i ++ str " 帧，第 " ++ natStr j ++ str " 个原子：力数据不完整。"

def xyzFrame (atom_types coordinates energies : List (List Str)) (i : Nat) :
    Except PyErr (List Str) :=
  let num_atoms := (atom_types.getD i []).length
  if energies.length ≤ i then .error (.indexError (missing_energy_msg i))
  else
    match (energies.getD i []).head? with
    | none => .error (.indexError (str "list index out of range"))
    | some e0 =>
      if coordinates.length ≤ i then .error (.indexError (missing_coord_msg i))
      else if (coordinates.getD i []).length ≠ num_atoms * 3 then
        .error (.valueError (frame_coord_msg i (num_atoms * 3) (coordinates.getD i []).length))
      else
        ((List.range num_atoms).mapM (fun j =>
          if (atom_types.getD i []).length ≤ j then
            Except.error (PyErr.indexError (missing_atom_msg i j))
          else if (coordinates.getD i []).length < (j + 1) * 3 then
            Except.error (PyErr.indexError (incomplete_coord_msg i j))
          else
            Except.ok ((atom_types.getD i []).getD j [] ++ str " "
              ++ strJoin (str " ") (((coordinates.getD i []).drop (j * 3)).take 3)))).map
        (fun atomLines =>
          (str "     " ++ natStr num_atoms)
            :: (str " i = " ++ natStr i ++ str ", E = " ++ e0)
            :: atomLines)

def generate_xyz_content (atom_types coordinates energies : List (List Str)) :
    Except PyErr Str :=
  ((List.range atom_types.length).foldlM (fun acc i =>
    (xyzFrame atom_types coordinates energies i).map (fun ls => acc ++ ls)) []).map
  (strJoin (str "\n"))

/-! ## generate_extxyz_content (lines 213-288) -/

/-- The label-token loop of lines 232-241: for each declared label, append a
rendered token when a value exists for this frame, else only warn. -/
def addLabels (labels : List (Str × Option (List Str))) (i : Nat) (line : Str) : Str :=
  labels.foldl (fun ln p =>
    match p.2 with
    | none => ln
    | some vs =>
      if i < vs.length then
        ln ++ str " " ++ p.1 ++ str "="
          ++ ((if vs.getD i [] = [] then str "None" else vs.getD i []).map
              (fun c => if c = ' ' then '_' else c))
      else ln) line

/-- The per-frame token rendered for one declared label, or `none` when the
label has no value for this frame (then only a warning is printed). -/
def labelTok (i : Nat) (p : Str × Option (List Str)) : Option Str :=
  match p.2 with
  | none => none
  | some vs =>
    if i < vs.length then
      some (str " " ++ p.1 ++ str "="
        ++ ((if vs.getD i [] = [] then str "None" else vs.getD i []).map
            (fun c => if c = ' ' then '_' else c)))
    else none

/-- PBC token selection of lines 246-252. -/
def pbc_value (pbc_option : Str) (box : Option (List (List Str))) (i : Nat) : Str :=
  if pbc_option = str "box" ∧ box.isSome then
    if i < (box.getD []).length then strJoin (str " ") ((box.getD []).getD i [])
    else str "F F F"
  else str "F F F"

/-- The fixed Properties token, extended when forces are present (lines 226-228). -/
def extxyzProps (forces : Option (List (List Str))) : Str :=
  str "Properties=species:S:1:pos:R:3" ++ (if forces.isSome then str ":forces:R:3" else [])

/-- The per-frame metadata line: Properties token, label tokens, energy token,
quoted pbc token (lines 226-253). -/
def extxyzMeta (labels : List (Str × Option (List Str))) (i : Nat)
    (forces box : Option (List (List Str))) (pbc_option : Str) (e0 : Str) : Str :=
  addLabels labels i (extxyzProps forces)
    ++ str " energy=" ++ e0
    ++ str " pbc=" ++ '"' :: (pbc_value pbc_option box i ++ ['"'])

/-- The per-atom output lines of one frame (lines 269-286): species, coordinate
triple, and force triple when forces are present. -/
def extxyzAtomLines (i : Nat) (ai ci : List Str) (foRow : Option (List Str)) :
    Except PyErr (List Str) :=
  (List.range ai.length).mapM (fun j =>
    if ai.length ≤ j then Except.error (PyErr.indexError (missing_atom_msg i j))
    else if ci.length < (j + 1) * 3 then
      Except.error (PyErr.indexError (incomplete_coord_msg i j))
    else
      match foRow with
      | some fr =>
        if fr.length < (j + 1) * 3 then
          Except.error (PyErr.indexError (incomplete_force_msg i j))
        else
          Except.ok (ai.getD j [] ++ str " "
            ++ strJoin (str " ") ((ci.drop (j * 3)).take 3)
            ++ str " "
            ++ strJoin (str " ") ((fr.drop (j * 3)).take 3))
      | none =>
        Except.ok (ai.getD j [] ++ str " "
          ++ strJoin (str " ") ((ci.drop (j * 3)).take 3)))

def extxyzFrame (atom_types coordinates energies : List (List Str))
    (forces box : Option (List (List Str)))
    (labels : List (Str × Option (List Str))) (pbc_option : Str) (i : Nat) :
    Except PyErr (List Str) :=
  if energies.length ≤ i then .error (.indexError (missing_energy_msg i))
  else
    match (energies.getD i []).head? with
    | none => .error (.indexError (str "list index out of range"))
    | some e0 =>
      if coordinates.length ≤ i then .error (.indexError (missing_coord_msg i))
      else if (coordinates.getD i []).length ≠ (atom_types.getD i []).length * 3 then
        .error (.valueError (frame_coord_msg i ((atom_types.getD i []).length * 3)
          (coordinates.getD i []).length))
      else
        match forces with
        | some fs =>
          if fs.length ≤ i then .error (.indexError (str "list index out of range"))
          else if (fs.getD i []).length ≠ (atom_types.getD i []).length * 3 then
            .error (.valueError (frame_force_msg i ((atom_types.getD i []).length * 3)
              (fs.getD i []).length))
          else
            (extxyzAtomLines i (atom_types.getD i []) (coordinates.getD i [])
              (some (fs.getD i []))).map
            (fun atomLines => natStr (atom_types.getD i []).length
              :: extxyzMeta labels i forces box pbc_option e0 :: atomLines)
        | none =>
          (extxyzAtomLines i (atom_types.getD i []) (coordinates.getD i []) none).map
          (fun atomLines => natStr (atom_types.getD i []).length
            :: extxyzMeta labels i forces box pbc_option e0 :: atomLines)

def extxyzAllFrames (atom_types coordinates energies : List (List Str))
    (forces box : Option (List (List Str)))
    (labels : List (Str × Option (List Str))) (pbc_option : Str) :
    Except PyErr (List Str) :=
  (List.range atom_types.length).foldlM (fun acc i =>
    (extxyzFrame atom_types coordinates energies forces box labels pbc_option i).map
      (fun ls => acc ++ ls)) []

def generate_extxyz_content (atom_types coordinates energies : List (List Str))
    (forces box : Option (List (List Str)))
    (labels : List (Str × Option (List Str))) (pbc_option : Str) :
    Except PyErr Str :=
  (extxyzAllFrames atom_types coordinates energies forces box labels pbc_option).map
    (strJoin (str "\n"))

/-! ## split_extxyz (lines 334-427) -/

/-- Leftmost-scan of the regex `(\w+)=([^ ]+)` over a line (re.findall); the
fuel argument bounds the number of scan steps, each of which consumes at least
one character.  A match at the current position needs a maximal word-character
run followed by = and a nonempty run of non-space characters; on success the
scan resumes after the value, on failure one character later. -/
def findKVAux : Nat → Str → List (Str × Str)
  | 0, _ => []
  | _ + 1, [] => []
  | fuel + 1, c :: cs =>
    if isWordChar c then
      if ((c :: cs).dropWhile isWordChar).head? = some '=' then
        if (((c :: cs).dropWhile isWordChar).tail).takeWhile (fun x => x ≠ ' ') = [] then
          findKVAux fuel cs
        else
          ((c :: cs).takeWhile isWordChar,
            (((c :: cs).dropWhile isWordChar).tail).takeWhile (fun x => x ≠ ' ')) ::
          findKVAux fuel ((((c :: cs).dropWhile isWordChar).tail).dropWhile (fun x => x ≠ ' '))
      else findKVAux fuel cs
    else findKVAux fuel cs

def findKV (s : Str) : List (Str × Str) := findKVAux s.length s

/-- Python dict insertion: update in place if the key exists, else append. -/
def dictInsert (d : List (Str × Str)) (k v : Str) : List (Str × Str) :=
  if d.any (fun p => p.1 == k) then d.map (fun p => if p.1 == k then (p.1, v) else p)
  else d ++ [(k, v)]

def dictGet (d : List (Str × Str)) (k : Str) (dflt : Str) : Str :=
  match d.find? (fun p => p.1 == k) with
  | some p => p.2
  | none => dflt

/-- parse_labels: every key=value match except the Properties and pbc keys. -/
def parse_labels (line : Str) : List (Str × Str) :=
  (findKV line).foldl (fun d kv =>
    if kv.1 ≠ str "Properties" ∧ kv.1 ≠ str "pbc" then dictInsert d kv.1 kv.2 else d) []

/-- parse_pbc: leftmost match of `pbc="([^"]+)"`. -/
def parse_pbc : Str → Option Str
  | [] => none
  | c :: cs =>
    if (c :: cs).take 5 = str "pbc=" ++ ['"'] then
      let after := (c :: cs).drop 5
      let v := after.takeWhile (fun x => x ≠ '"')
      if v ≠ [] ∧ after.dropWhile (fun x => x ≠ '"') ≠ [] then some v
      else parse_pbc cs
    else parse_pbc cs

/-- Acceptance of the tail of a Python int literal: groups of digits joined by
single underscores.  The fuel argument bounds the number of groups. -/
def intTailOkAux : Nat → Str → Bool
  | _, [] => true
  | 0, _ :: _ => false
  | fuel + 1, '_' :: rest =>
    match rest with
    | c :: cs => c.isDigit && intTailOkAux fuel (cs.dropWhile Char.isDigit)
    | [] => false
  | _ + 1, _ :: _ => false

def intTailOk (s : Str) : Bool := intTailOkAux s.length s

/-- Body of a Python int literal after an optional sign: a digit run, then
underscore-joined digit groups. -/
def intBodyOk (t : Str) : Bool :=
  match t with
  | [] => false
  | c :: cs => c.isDigit && intTailOk (cs.dropWhile Char.isDigit)

/-- Whether Python int() accepts the string (strip, optional sign, digit
groups with single underscores; the converted value is never used by the
splitter). -/
def pyIntOk (s : Str) : Bool :=
  match pyStrip s with
  | [] => false
  | c :: cs => if c = '+' ∨ c = '-' then intBodyOk cs else intBodyOk (c :: cs)

/-- Frame grouping loop of lines 354-363: a digit-only line flushes the current
frame and opens a new one; lines are stored stripped. -/
def splitFramesAux (cur : List Str) : List Str → List (List Str)
  | [] => if cur = [] then [] else [cur]
  | l :: ls =>
    let s := pyStrip l
    if pyIsDigitStr s then
      if cur = [] then splitFramesAux [s] ls else cur :: splitFramesAux [s] ls
    else splitFramesAux (cur ++ [s]) ls

def split_frames (lines : List Str) : List (List Str) := splitFramesAux [] lines

/-- The columnar output files written by split_extxyz; label files are keyed by
label name. -/
structure SplitOut where
  label_files : List (Str × List Str)
  energy : List Str
  box : List Str
  species : List Str
  coord : List Str
  force : List Str
deriving DecidableEq, Repr

/-- Appending one line to a named output file, creating it when absent. -/
def appendFile (files : List (Str × List Str)) (k : Str) (line : Str) :
    List (Str × List Str) :=
  if files.any (fun p => p.1 == k) then
    files.map (fun p => if p.1 == k then (p.1, p.2 ++ [line]) else p)
  else files ++ [(k, [line])]

def lookupFile (files : List (Str × List Str)) (k : Str) : Option (List Str) :=
  (files.find? (fun p => p.1 == k)).map Prod.snd

/-- Processing of one grouped frame (lines 366-409); `none` models any caught
exception (bad int, missing metadata line, metadata line without =, empty atom
line). -/
def processFrame (st : SplitOut) (fr : List Str) : Option SplitOut :=
  if pyIntOk (fr.getD 0 []) = false then none
  else if fr.length < 2 then none
  else
    let pline := fr.getD 1 []
    if pline.contains '=' = false then none
    else
      let labels := parse_labels pline
      let pbc := parse_pbc pline
      let files := labels.foldl (fun fl kv => appendFile fl kv.1 kv.2) st.label_files
      let energy := st.energy ++ [dictGet labels (str "energy") []]
      let box := match pbc with
        | some p => if p ≠ [] ∧ p ≠ str "F F F" then st.box ++ [p] else st.box
        | none => st.box
      match (fr.drop 2).foldlM (fun (acc : List Str × List Str × List Str) line =>
          match pySplit line with
          | [] => none
          | a :: rest =>
            some (acc.1 ++ [a], acc.2.1 ++ rest.take 3,
              acc.2.2 ++ (if 4 < (a :: rest).length then ((a :: rest).drop 4).take 3 else [])))
          (([], [], []) : List Str × List Str × List Str) with
      | none => none
      | some (sp, pos, fo) =>
        some { label_files := files, energy := energy, box := box,
               species := st.species ++ [strJoin (str " ") sp],
               coord := st.coord ++ [strJoin (str " ") pos],
               force := if fo ≠ [] then st.force ++ [strJoin (str " ") fo] else st.force }

def split_extxyz (lines : List Str) : Option SplitOut :=
  (split_frames lines).foldlM processFrame
    { label_files := [], energy := [], box := [], species := [], coord := [], force := [] }

/-- A whitespace-free nonempty token, as produced by the column reader. -/
def goodTok (t : Str) : Prop := t ≠ [] ∧ ∀ c ∈ t, ¬ c.isWhitespace

instance (t : Str) : Decidable (goodTok t) := by
  unfold goodTok; infer_instance

/-- Whether pat occurs as a contiguous substring of s. -/
def hasInfix (s pat : Str) : Bool := s.tails.any (fun t => pat.isPrefixOf t)

/-- A well-formed frame block for the grouping loop of split_extxyz: the first
line is digit-only and strip-invariant, all later lines are strip-invariant
and not digit-only. -/
def WFBlock (b : List Str) : Prop :=
  ∃ d rest, b = d :: rest ∧ pyStrip d = d ∧ pyIsDigitStr d = true
    ∧ ∀ l ∈ rest, pyStrip l = l ∧ pyIsDigitStr l = false

/-- Well-formedness hypotheses for the extended round trip: the validator
invariants of the specification plus the token-level conditions the text
format needs (whitespace-free nonempty tokens, single-token energies without
quotes, word-character label names distinct from the reserved keys, label
values without whitespace or quotes, box rows without quotes or equals signs
and different from the closed default). -/
structure RTHyp (A C E : List (List Str)) (Fo B : Option (List (List Str)))
    (L : List (Str × Option (List Str))) : Prop where
  hA0 : A ≠ []
  hC : C.length = A.length
  hE : E.length = A.length
  hFo : Fo.isSome = true → (Fo.getD []).length = A.length
  hB : B.isSome = true → (B.getD []).length = A.length
  hClen : ∀ i, i < A.length → (C.getD i []).length = (A.getD i []).length * 3
  hFlen : Fo.isSome = true → ∀ i, i < A.length →
    ((Fo.getD []).getD i []).length = (A.getD i []).length * 3
  hArow : ∀ r ∈ A, r ≠ [] ∧ ∀ t ∈ r, goodTok t
  hCrow : ∀ r ∈ C, ∀ t ∈ r, goodTok t
  hFrow : Fo.isSome = true → ∀ r ∈ Fo.getD [], ∀ t ∈ r, goodTok t
  hErow : ∀ r ∈ E, r.length = 1 ∧ ∀ t ∈ r, goodTok t ∧ '"' ∉ t
  hBrow : B.isSome = true → ∀ r ∈ B.getD [], r ≠ []
    ∧ (∀ t ∈ r, goodTok t ∧ '"' ∉ t ∧ '=' ∉ t)
    ∧ r ≠ [str "F", str "F", str "F"]
  hLkeys : (L.map Prod.fst).Nodup
  hLname : ∀ p ∈ L, p.1 ≠ [] ∧ (∀ c ∈ p.1, isWordChar c)
    ∧ p.1 ≠ str "Properties" ∧ p.1 ≠ str "pbc" ∧ p.1 ≠ str "energy"
  hLval : ∀ p ∈ L, p.2 ≠ none ∧ (p.2.getD []).length = A.length
    ∧ ∀ v ∈ p.2.getD [], v ≠ [] ∧ ∀ c ∈ v, ¬ c.isWhitespace ∧ c ≠ '"'

/-- The value part of the extended Properties token (everything after the =). -/
def propVal (forces : Option (List (List Str))) : Str :=
  str "species:S:1:pos:R:3" ++ (if forces.isSome then str ":forces:R:3" else [])

/-- The j-th group of three column tokens of a flat 3n-token row. -/
def chunk3 (l : List Str) (j : Nat) : List Str := (l.drop (j * 3)).take 3

/-- The j-th per-atom line the extended serializer emits for one frame. -/
def atomLine (ai ci : List Str) (foRow : Option (List Str)) (j : Nat) : Str :=
  match foRow with
  | some fr => ai.getD j [] ++ str " " ++ strJoin (str " ") ((ci.drop (j * 3)).take 3)
      ++ str " " ++ strJoin (str " ") ((fr.drop (j * 3)).take 3)
  | none => ai.getD j [] ++ str " " ++ strJoin (str " ") ((ci.drop (j * 3)).take 3)

/-- The force chunk the j-th atom line carries: empty when no forces. -/
def chunkF (foRow : Option (List Str)) (j : Nat) : List Str :=
  match foRow with
  | some fr => (fr.drop (j * 3)).take 3
  | none => []

/-- The value a declared label contributes at frame i. -/
def valAt (i : Nat) (p : Str × Option (List Str)) : Str := (p.2.getD []).getD i []

/-- The key=value pairs the metadata line of frame i carries for the declared
labels. -/
def labelPairs (L : List (Str × Option (List Str))) (i : Nat) : List (Str × Str) :=
  L.map (fun p => (p.1, valAt i p))

/-- The block of lines the extended serializer emits for frame i. -/
def rtBlock (A C E : List (List Str)) (Fo B : Option (List (List Str)))
    (L : List (Str × Option (List Str))) (popt : Str) (i : Nat) : List Str :=
  natStr (A.getD i []).length
    :: extxyzMeta L i Fo B popt ((E.getD i []).getD 0 [])
    :: (List.range (A.getD i []).length).map
        (atomLine (A.getD i []) (C.getD i []) (Fo.map (fun fs => fs.getD i [])))

/-- The splitter state after consuming the first m serialized frames. -/
def rtState (A C E : List (List Str)) (Fo B : Option (List (List Str)))
    (L : List (Str × Option (List Str))) (popt : Str) (m : Nat) : SplitOut :=
  { label_files :=
      if m = 0 then []
      else (L.map (fun p => (p.1, (p.2.getD []).take m)))
        ++ [(str "energy", (E.take m).map (fun r => r.getD 0 []))],
    energy := (E.take m).map (fun r => r.getD 0 []),
    box := if popt = str "box" ∧ B.isSome
      then ((B.getD []).take m).map (strJoin (str " ")) else [],
    species := (A.take m).map (strJoin (str " ")),
    coord := (C.take m).map (strJoin (str " ")),
    force := match Fo with
      | some fs => (fs.take m).map (strJoin (str " "))
      | none => [] }

end Chushihua

namespace Chushihua

/-! ## Theorems -/

theorem except_map_ok {α β ε : Type} {f : α → β} {x : Except ε α} {b : β}
    (h : x.map f = Except.ok b) : ∃ a, x = Except.ok a ∧ b = f a := by
  cases x with
  | error e => exact Except.noConfusion h
  | ok a =>
    refine ⟨a, rfl, ?_⟩
    simpa [Except.map] using h.symm

/-- C7: on the concrete two-frame input (species H,O then H,H,O; 6 and 9
coordinate tokens; one energy token per frame) the plain serializer emits
exactly two frames in order: padded atom-count lines whose stripped content is
2 then 3, comment lines whose stripped content is i = 0, E = -1.0 and
i = 1, E = -2.0, then one species-x-y-z line per atom in input order. -/
theorem C7_theorem :
    generate_xyz_content
      [[str "H", str "O"], [str "H", str "H", str "O"]]
      [[str "0.0", str "0.1", str "0.2", str "1.0", str "1.1", str "1.2"],
       [str "0.0", str "0.1", str "0.2", str "1.0", str "1.1", str "1.2",
        str "2.0", str "2.1", str "2.2"]]
      [[str "-1.0"], [str "-2.0"]]
    = Except.ok (strJoin (str "\n")
        [str "     2", str " i = 0, E = -1.0",
         str "H 0.0 0.1 0.2", str "O 1.0 1.1 1.2",
         str "     3", str " i = 1, E = -2.0",
         str "H 0.0 0.1 0.2", str "H 1.0 1.1 1.2", str "O 2.0 2.1 2.2"])
    ∧ pyStrip (str "     2") = str "2"
    ∧ pyStrip (str "     3") = str "3"
    ∧ pyStrip (str " i = 0, E = -1.0") = str "i = 0, E = -1.0"
    ∧ pyStrip (str " i = 1, E = -2.0") = str "i = 1, E = -2.0" := by
  decide

/-- C4: the label reader returns an explicit absent result (not an error) for a
missing file, but the conversion does not then proceed: the validator applies
len() to the absent value and aborts the conversion with a TypeError, so no
warning-and-default substitution ever happens. -/
theorem C4_theorem :
    read_label_file none = none
    ∧ validate_data_consistency [[str "H"]] [[str "0", str "0", str "0"]] [[str "1"]]
        none none [(str "tag", read_label_file none)] = ValidateResult.typeErr
    ∧ ValidateResult.typeErr ≠ ValidateResult.ok := by
  decide

/-- C2 counterexample: with atom_types of one frame and an empty coordinates
collection, there is a frame-count mismatch for coordinates, yet the validator
aborts with an IndexError (indexing coordinates[0] in the per-frame loop)
instead of failing with the accumulated violation list. -/
theorem C2_counterexample :
    validate_data_consistency [[str "H"]] [] [[str "1"]] none none []
      = ValidateResult.idxErr
    ∧ ValidateResult.idxErr ≠ ValidateResult.fail [count_msg "coordinates" 1 0] := by
  decide

/-- C3 counterexample: frame 0 has a per-frame coordinate-length mismatch
(2 tokens instead of 3), but because frame 1 has no coordinate row at all the
validator aborts with IndexError and never surfaces the frame-0 violation, so
the per-frame check does not hold independently of the other frames. -/
theorem C3_counterexample :
    validate_data_consistency [[str "H"], [str "H"]] [[str "0", str "0"]]
      [[str "1"], [str "2"]] none none [] = ValidateResult.idxErr
    ∧ ValidateResult.idxErr ≠ ValidateResult.fail [frame_coord_msg 0 3 2] := by
  decide

/-- C5 counterexample: a declared label with no value for frame 0 (an empty
sequence) is not rendered as the literal None: the extended serializer omits
the label token entirely, and the emitted text contains neither a None token
nor any l= token. -/
theorem C5_counterexample :
    generate_extxyz_content [[str "H"]] [[str "0", str "0", str "0"]] [[str "1"]]
      none none [(str "l", some [])] (str "fff")
      = Except.ok (str "1\nProperties=species:S:1:pos:R:3 energy=1 pbc=\"F F F\"\nH 0 0 0")
    ∧ hasInfix (str "1\nProperties=species:S:1:pos:R:3 energy=1 pbc=\"F F F\"\nH 0 0 0")
        (str "None") = false
    ∧ hasInfix (str "1\nProperties=species:S:1:pos:R:3 energy=1 pbc=\"F F F\"\nH 0 0 0")
        (str "l=") = false := by
  decide

/-- C6: PBC mode selection.  With mode fff the pbc token is the closed default
F F F regardless of box data; with mode box and a box row for frame i it is the
space-joined row; with mode box and no row for frame i (index past the end or
no box at all) it falls back to F F F; and every successful extended frame ends
its metadata line with a quoted pbc token equal to pbc_value. -/
theorem C6_theorem :
    (∀ box i, pbc_value (str "fff") box i = str "F F F")
    ∧ (∀ b : List (List Str), ∀ i, i < b.length →
        pbc_value (str "box") (some b) i = strJoin (str " ") (b.getD i []))
    ∧ (∀ b : List (List Str), ∀ i, b.length ≤ i →
        pbc_value (str "box") (some b) i = str "F F F")
    ∧ (∀ i, pbc_value (str "box") none i = str "F F F")
    ∧ (∀ A C E Fo B L opt i ls,
        extxyzFrame A C E Fo B L opt i = Except.ok ls →
        ∃ pre, ls.getD 1 [] = pre ++ str " pbc=" ++ '"' :: (pbc_value opt B i ++ ['"'])) := by
  refine ⟨?_, ?_, ?_, ?_, ?_⟩
  · intro box i
    have hne : ¬ (str "fff" = str "box" ∧ box.isSome = true) := by
      rintro ⟨h, -⟩; exact absurd h (by decide)
    simp [pbc_value, hne]
  · intro b i hi
    have hp : str "box" = str "box" ∧ (some b : Option (List (List Str))).isSome = true :=
      ⟨rfl, rfl⟩
    simp [pbc_value, hp, hi]
  · intro b i hi
    have hp : str "box" = str "box" ∧ (some b : Option (List (List Str))).isSome = true :=
      ⟨rfl, rfl⟩
    simp [pbc_value, hp, Nat.not_lt_of_le hi]
  · intro i
    have hne : ¬ (str "box" = str "box" ∧ (none : Option (List (List Str))).isSome = true) := by
      rintro ⟨-, h⟩; simp at h
    simp [pbc_value, hne]
  · intro A C E Fo B L opt i ls h
    unfold extxyzFrame at h
    split at h
    · exact Except.noConfusion h
    · split at h
      · exact Except.noConfusion h
      · split at h
        · exact Except.noConfusion h
        · split at h
          · exact Except.noConfusion h
          · split at h
            · split at h
              · exact Except.noConfusion h
              · split at h
                · exact Except.noConfusion h
                · obtain ⟨als, -, hls⟩ := except_map_ok h
                  subst hls
                  exact ⟨_, rfl⟩
            · obtain ⟨als, -, hls⟩ := except_map_ok h
              subst hls
              exact ⟨_, rfl⟩

/-- C6 witness: the mode-selection facts evaluated at concrete inputs. -/
theorem C6_witness :
    pbc_value (str "fff") (some [[str "T", str "T", str "T"]]) 0 = str "F F F"
    ∧ pbc_value (str "box") (some [[str "T", str "T", str "F"]]) 0
        = strJoin (str " ") ([[str "T", str "T", str "F"]].getD 0 [])
    ∧ pbc_value (str "box") (some [[str "T", str "T", str "F"]]) 1 = str "F F F"
    ∧ pbc_value (str "box") none 3 = str "F F F"
    ∧ ∃ pre, ([str "1", str "Properties=species:S:1:pos:R:3 energy=1 pbc=\"F F F\"",
        str "H 0 0 0"].getD 1 [])
        = pre ++ str " pbc=" ++ '"' :: (pbc_value (str "fff") none 0 ++ ['"']) :=
  ⟨C6_theorem.1 (some [[str "T", str "T", str "T"]]) 0,
   C6_theorem.2.1 [[str "T", str "T", str "F"]] 0 (by decide),
   C6_theorem.2.2.1 [[str "T", str "T", str "F"]] 1 (by decide),
   C6_theorem.2.2.2.1 3,
   C6_theorem.2.2.2.2 [[str "H"]] [[str "0", str "0", str "0"]] [[str "1"]] none none []
     (str "fff") 0 _ (by decide)⟩

/-! ### Validator lemmas -/

theorem labelErrs_all_some (n : Nat) (labels : List (Str × Option (List Str)))
    (hlab : ∀ p ∈ labels, p.2 ≠ none) :
    ∃ le, labelErrs n labels = some le
      ∧ ∀ nm l, (nm, some l) ∈ labels → l.length ≠ n → label_count_msg nm l.length n ∈ le := by
  induction labels with
  | nil => exact ⟨[], rfl, by simp⟩
  | cons p rest ih =>
    obtain ⟨nm, vs⟩ := p
    cases vs with
    | none => exact absurd rfl (hlab (nm, none) (List.mem_cons_self _ _))
    | some l =>
      obtain ⟨le, hle, hmem⟩ := ih (fun q hq => hlab q (List.mem_cons_of_mem _ hq))
      refine ⟨(if l.length ≠ n then [label_count_msg nm l.length n] else []) ++ le, ?_, ?_⟩
      · simp [labelErrs, hle]
      · intro nm2 l2 hm hne
        rcases List.mem_cons.mp hm with heq | hrest
        · obtain ⟨h1, h2⟩ := Prod.mk.injEq .. ▸ heq
          cases Option.some.inj h2
          cases h1
          simp [hne]
        · exact List.mem_append_right _ (hmem nm2 l2 hrest hne)

theorem frameErrsAux_some (atom_types coordinates : List (List Str))
    (forces : Option (List (List Str))) (is : List Nat)
    (hC : ∀ j ∈ is, j < coordinates.length)
    (hF : ∀ fs, forces = some fs → ∀ j ∈ is, j < fs.length) :
    ∃ fe, frameErrsAux atom_types coordinates forces is = some fe
      ∧ ∀ i ∈ is, (coordinates.getD i []).length ≠ (atom_types.getD i []).length * 3 →
          frame_coord_msg i ((atom_types.getD i []).length * 3)
            (coordinates.getD i []).length ∈ fe := by
  induction is with
  | nil => exact ⟨[], rfl, by simp⟩
  | cons i is ih =>
    obtain ⟨fe, hfe, hmem⟩ := ih (fun j hj => hC j (List.mem_cons_of_mem _ hj))
      (fun fs hfs j hj => hF fs hfs j (List.mem_cons_of_mem _ hj))
    have hci : ¬ coordinates.length ≤ i := Nat.not_le_of_lt (hC i (List.mem_cons_self _ _))
    cases forces with
    | none =>
      refine ⟨(if (coordinates.getD i []).length ≠ (atom_types.getD i []).length * 3 then
          [frame_coord_msg i ((atom_types.getD i []).length * 3)
            (coordinates.getD i []).length] else []) ++ fe, ?_, ?_⟩
      · simp [frameErrsAux, hci, hfe]
      · intro j hj hne
        rcases List.mem_cons.mp hj with rfl | hrest
        · exact List.mem_append_left _ (by rw [if_pos hne]; exact List.mem_singleton_self _)
        · exact List.mem_append_right _ (hmem j hrest hne)
    | some fs =>
      have hfi : ¬ fs.length ≤ i := Nat.not_le_of_lt (hF fs rfl i (List.mem_cons_self _ _))
      refine ⟨(if (coordinates.getD i []).length ≠ (atom_types.getD i []).length * 3 then
          [frame_coord_msg i ((atom_types.getD i []).length * 3)
            (coordinates.getD i []).length] else []) ++
          (if (fs.getD i []).length ≠ (atom_types.getD i []).length * 3 then
            [frame_force_msg i ((atom_types.getD i []).length * 3)
              (fs.getD i []).length] else []) ++ fe, ?_, ?_⟩
      · simp [frameErrsAux, hci, hfi, hfe]
      · intro j hj hne
        rcases List.mem_cons.mp hj with rfl | hrest
        · exact List.mem_append_left _ (List.mem_append_left _
            (by rw [if_pos hne]; exact List.mem_singleton_self _))
        · exact List.mem_append_right _ (hmem j hrest hne)

/-- C2: amended validator-completeness.  Provided every label sequence is
present (non-None) and coordinates and forces have at least as many frames as
atom_types (otherwise the per-frame loop aborts with IndexError or TypeError,
see the counterexample), any frame-count mismatch makes the validator fail
with the accumulated violation list, and that list contains the violation
string of every mismatched field, not just the first. -/
theorem C2_theorem (A C E : List (List Str)) (Fo B : Option (List (List Str)))
    (labels : List (Str × Option (List Str)))
    (hlab : ∀ p ∈ labels, p.2 ≠ none)
    (hC : A.length ≤ C.length)
    (hF : ∀ fs, Fo = some fs → A.length ≤ fs.length)
    (hmis : C.length ≠ A.length ∨ E.length ≠ A.length
      ∨ (∃ fs, Fo = some fs ∧ fs.length ≠ A.length)
      ∨ (∃ b, B = some b ∧ b.length ≠ A.length)
      ∨ (∃ nm l, (nm, some l) ∈ labels ∧ l.length ≠ A.length)) :
    ∃ errs, validate_data_consistency A C E Fo B labels = ValidateResult.fail errs
      ∧ (C.length ≠ A.length → count_msg "coordinates" A.length C.length ∈ errs)
      ∧ (E.length ≠ A.length → count_msg "energies" A.length E.length ∈ errs)
      ∧ (∀ fs, Fo = some fs → fs.length ≠ A.length →
          count_msg "forces" A.length fs.length ∈ errs)
      ∧ (∀ b, B = some b → b.length ≠ A.length →
          count_msg "box" A.length b.length ∈ errs)
      ∧ (∀ nm l, (nm, some l) ∈ labels → l.length ≠ A.length →
          label_count_msg nm l.length A.length ∈ errs) := by
  obtain ⟨le, hle, hlemem⟩ := labelErrs_all_some A.length labels hlab
  obtain ⟨fe, hfe, -⟩ := frameErrsAux_some A C Fo (List.range A.length)
    (fun j hj => Nat.lt_of_lt_of_le (List.mem_range.mp hj) hC)
    (fun fs hfs j hj => Nat.lt_of_lt_of_le (List.mem_range.mp hj) (hF fs hfs))
  have hcmem : C.length ≠ A.length →
      count_msg "coordinates" A.length C.length ∈ countErrs A.length C E Fo B := by
    intro h; simp [countErrs, h]
  have hemem : E.length ≠ A.length →
      count_msg "energies" A.length E.length ∈ countErrs A.length C E Fo B := by
    intro h; simp [countErrs, h]
  have hfmem : ∀ fs, Fo = some fs → fs.length ≠ A.length →
      count_msg "forces" A.length fs.length ∈ countErrs A.length C E Fo B := by
    intro fs hfs h; subst hfs; simp [countErrs, h]
  have hbmem : ∀ b, B = some b → b.length ≠ A.length →
      count_msg "box" A.length b.length ∈ countErrs A.length C E Fo B := by
    intro b hb h; subst hb; simp [countErrs, h]
  have hne : ¬ (countErrs A.length C E Fo B ++ le ++ fe = []) := by
    rcases hmis with h | h | ⟨fs, hfs, h⟩ | ⟨b, hb, h⟩ | ⟨nm, l, hm, h⟩
    · exact List.ne_nil_of_mem (List.mem_append_left _ (List.mem_append_left _ (hcmem h)))
    · exact List.ne_nil_of_mem (List.mem_append_left _ (List.mem_append_left _ (hemem h)))
    · exact List.ne_nil_of_mem
        (List.mem_append_left _ (List.mem_append_left _ (hfmem fs hfs h)))
    · exact List.ne_nil_of_mem
        (List.mem_append_left _ (List.mem_append_left _ (hbmem b hb h)))
    · exact List.ne_nil_of_mem
        (List.mem_append_left _ (List.mem_append_right _ (hlemem nm l hm h)))
  refine ⟨countErrs A.length C E Fo B ++ le ++ fe, ?_, ?_, ?_, ?_, ?_, ?_⟩
  · simp only [validate_data_consistency, hle, hfe]
    rw [if_neg hne]
  · intro h
    exact List.mem_append_left _ (List.mem_append_left _ (hcmem h))
  · intro h
    exact List.mem_append_left _ (List.mem_append_left _ (hemem h))
  · intro fs hfs h
    exact List.mem_append_left _ (List.mem_append_left _ (hfmem fs hfs h))
  · intro b hb h
    exact List.mem_append_left _ (List.mem_append_left _ (hbmem b hb h))
  · intro nm l hm h
    exact List.mem_append_left _ (List.mem_append_right _ (hlemem nm l hm h))

/-- C2 witness: a concrete input with an energies mismatch and a box mismatch;
the validator fails and the violation list contains both strings. -/
theorem C2_witness :
    ∃ errs, validate_data_consistency [[str "H"]] [[str "0", str "0", str "0"]] []
        (none) (some []) [] = ValidateResult.fail errs
      ∧ (([] : List (List Str)).length ≠ 1 → count_msg "energies" 1 0 ∈ errs)
      ∧ (∀ b, (some [] : Option (List (List Str))) = some b → b.length ≠ 1 →
          count_msg "box" 1 b.length ∈ errs) := by
  obtain ⟨errs, h1, -, h3, -, h5, -⟩ :=
    C2_theorem [[str "H"]] [[str "0", str "0", str "0"]] [] none (some []) []
      (by simp) (by decide) (by simp)
      (Or.inr (Or.inl (by decide)))
  exact ⟨errs, h1, fun h => h3 h, h5⟩

/-- C3: amended per-frame length check.  Provided every label sequence is
present and coordinates and forces have at least as many rows as atom_types
(otherwise the loop aborts before printing, see the counterexample), a
coordinate-length mismatch at any frame i makes the validator fail with a
violation naming frame i, independently of the other frames. -/
theorem C3_theorem (A C E : List (List Str)) (Fo B : Option (List (List Str)))
    (labels : List (Str × Option (List Str))) (i : Nat)
    (hlab : ∀ p ∈ labels, p.2 ≠ none)
    (hC : A.length ≤ C.length)
    (hF : ∀ fs, Fo = some fs → A.length ≤ fs.length)
    (hi : i < A.length)
    (hmm : (C.getD i []).length ≠ (A.getD i []).length * 3) :
    ∃ errs, validate_data_consistency A C E Fo B labels = ValidateResult.fail errs
      ∧ frame_coord_msg i ((A.getD i []).length * 3) (C.getD i []).length ∈ errs := by
  obtain ⟨le, hle, -⟩ := labelErrs_all_some A.length labels hlab
  obtain ⟨fe, hfe, hfemem⟩ := frameErrsAux_some A C Fo (List.range A.length)
    (fun j hj => Nat.lt_of_lt_of_le (List.mem_range.mp hj) hC)
    (fun fs hfs j hj => Nat.lt_of_lt_of_le (List.mem_range.mp hj) (hF fs hfs))
  have hmem := hfemem i (List.mem_range.mpr hi) hmm
  have hne : ¬ (countErrs A.length C E Fo B ++ le ++ fe = []) :=
    List.ne_nil_of_mem (List.mem_append_right _ hmem)
  refine ⟨countErrs A.length C E Fo B ++ le ++ fe, ?_, List.mem_append_right _ hmem⟩
  simp only [validate_data_consistency, hle, hfe]
  rw [if_neg hne]

/-! ### Label rendering (C5) -/

theorem addLabels_eq (labels : List (Str × Option (List Str))) (i : Nat) (line : Str) :
    addLabels labels i line = line ++ (labels.filterMap (labelTok i)).flatten := by
  induction labels generalizing line with
  | nil => simp [addLabels]
  | cons p rest ih =>
    obtain ⟨nm, vs⟩ := p
    cases vs with
    | none =>
      have hstep : addLabels ((nm, none) :: rest) i line = addLabels rest i line := rfl
      rw [hstep, ih]
      simp [labelTok]
    | some l =>
      have hstep : addLabels ((nm, some l) :: rest) i line
          = addLabels rest i
            (if i < l.length then
              line ++ str " " ++ nm ++ str "="
                ++ ((if l.getD i [] = [] then str "None" else l.getD i []).map
                    (fun c => if c = ' ' then '_' else c))
            else line) := rfl
      rw [hstep]
      by_cases hlt : i < l.length
      · rw [if_pos hlt, ih]
        simp only [List.filterMap_cons, labelTok, if_pos hlt, List.flatten_cons]
        simp [List.append_assoc]
      · rw [if_neg hlt, ih]
        simp [labelTok, hlt]

/-- C5: amended label rendering.  The metadata line accumulates, after the
Properties token, exactly one rendered token per declared label that has a
value for this frame: empty-string values render as the literal None, spaces
in non-empty values become underscores, and a label with no value for this
frame (absent sequence or index past its end) contributes no token at all --
it is omitted with a warning, not rendered as None. -/
theorem C5_theorem :
    (∀ labels i line, addLabels labels i line
      = line ++ (labels.filterMap (labelTok i)).flatten)
    ∧ (∀ i (n : Str) (vs : List Str), i < vs.length → vs.getD i [] = [] →
        labelTok i (n, some vs) = some (str " " ++ n ++ str "=" ++ str "None"))
    ∧ (∀ i (n : Str) (vs : List Str), i < vs.length → vs.getD i [] ≠ [] →
        labelTok i (n, some vs) = some (str " " ++ n ++ str "="
          ++ (vs.getD i []).map (fun c => if c = ' ' then '_' else c)))
    ∧ (∀ i (n : Str) (vs : List Str), vs.length ≤ i → labelTok i (n, some vs) = none)
    ∧ (∀ i (n : Str), labelTok i (n, none) = none) := by
  refine ⟨addLabels_eq, ?_, ?_, ?_, ?_⟩
  · intro i n vs hlt hv
    have hmap : (str "None").map (fun c => if c = ' ' then '_' else c) = str "None" := by decide
    rw [List.getD_eq_getElem vs [] hlt] at hv
    simp [labelTok, hlt, hv, hmap]
  · intro i n vs hlt hv
    rw [List.getD_eq_getElem vs [] hlt] at hv
    simp [labelTok, hlt, hv]
  · intro i n vs hle
    simp [labelTok, Nat.not_lt_of_le hle]
  · intro i n
    simp [labelTok]

/-- C5 witness: the rendering facts evaluated at concrete label values. -/
theorem C5_witness :
    addLabels [(str "l", some [str "a b"])] 0 []
      = [] ++ (([(str "l", some [str "a b"])]).filterMap (labelTok 0)).flatten
    ∧ labelTok 0 (str "l", some [[]]) = some (str " " ++ str "l" ++ str "=" ++ str "None")
    ∧ labelTok 0 (str "l", some [str "a b"]) = some (str " " ++ str "l" ++ str "="
        ++ (str "a b").map (fun c => if c = ' ' then '_' else c))
    ∧ labelTok 1 (str "l", some [str "x"]) = none
    ∧ labelTok 0 (str "l", none) = none :=
  ⟨C5_theorem.1 [(str "l", some [str "a b"])] 0 [],
   by
     have h := C5_theorem.2.1 0 (str "l") [[]] (by decide) (by decide)
     simpa using h,
   C5_theorem.2.2.1 0 (str "l") [str "a b"] (by decide) (by decide),
   C5_theorem.2.2.2.1 1 (str "l") [str "x"] (by decide),
   C5_theorem.2.2.2.2 0 (str "l")⟩

/-- C3 witness: frame 0 supplies 2 coordinate tokens for one atom; the
validator fails and the list names frame 0 with expected 3, got 2. -/
theorem C3_witness :
    ∃ errs, validate_data_consistency [[str "H"], [str "O"]]
        [[str "0", str "0"], [str "1", str "1", str "1"]]
        [[str "1"], [str "2"]] none none [] = ValidateResult.fail errs
      ∧ frame_coord_msg 0 3 2 ∈ errs := by
  obtain ⟨errs, h1, h2⟩ :=
    C3_theorem [[str "H"], [str "O"]] [[str "0", str "0"], [str "1", str "1", str "1"]]
      [[str "1"], [str "2"]] none none [] 0 (by simp) (by decide) (by simp)
      (by decide) (by decide)
  exact ⟨errs, h1, h2⟩

/-! ### Column reader invariant (C10) -/

theorem pySplitAux_sound (s : Str) : ∀ cur t, (∀ c ∈ cur, ¬ c.isWhitespace) →
    t ∈ pySplitAux cur s → t ≠ [] ∧ ∀ c ∈ t, ¬ c.isWhitespace := by
  induction s with
  | nil =>
    intro cur t hcur ht
    simp only [pySplitAux] at ht
    by_cases hc0 : cur = []
    · rw [if_pos hc0] at ht; simp at ht
    · rw [if_neg hc0] at ht
      rcases List.mem_singleton.mp ht with rfl
      refine ⟨by simpa using hc0, ?_⟩
      intro c hc
      exact hcur c (List.mem_reverse.mp hc)
  | cons a as ih =>
    intro cur t hcur ht
    simp only [pySplitAux] at ht
    by_cases hws : a.isWhitespace
    · rw [if_pos hws] at ht
      by_cases hc0 : cur = []
      · rw [if_pos hc0] at ht
        exact ih [] t (by simp) ht
      · rw [if_neg hc0] at ht
        rcases List.mem_cons.mp ht with rfl | hrest
        · exact ⟨by simpa using hc0, fun c hc => hcur c (List.mem_reverse.mp hc)⟩
        · exact ih [] t (by simp) hrest
    · rw [if_neg hws] at ht
      refine ih (a :: cur) t ?_ ht
      intro c hc
      rcases List.mem_cons.mp hc with rfl | hc2
      · exact hws
      · exact hcur c hc2

theorem pySplit_sound (s t : Str) (ht : t ∈ pySplit s) :
    t ≠ [] ∧ ∀ c ∈ t, ¬ c.isWhitespace :=
  pySplitAux_sound s [] t (by simp) ht

theorem pySplitAux_ne_nil (s : Str) : ∀ cur, cur ≠ [] → pySplitAux cur s ≠ [] := by
  induction s with
  | nil => intro cur hcur; simp [pySplitAux, hcur]
  | cons a as ih =>
    intro cur hcur
    simp only [pySplitAux]
    by_cases hws : a.isWhitespace
    · rw [if_pos hws, if_neg hcur]; simp
    · rw [if_neg hws]; exact ih (a :: cur) (by simp)

/-- The head of a nonempty stripped string is not whitespace. -/
theorem pyStrip_head (s : Str) (c : Char) (rest : Str) (h : pyStrip s = c :: rest) :
    ¬ c.isWhitespace := by
  unfold pyStrip at h
  have hpre : List.rdropWhile Char.isWhitespace (s.dropWhile Char.isWhitespace)
      <+: s.dropWhile Char.isWhitespace := List.rdropWhile_prefix _ _
  obtain ⟨r, hr⟩ := hpre
  rw [h] at hr
  have hne : s.dropWhile Char.isWhitespace ≠ [] := by
    rw [← hr]; simp
  have hth := List.head_dropWhile_not Char.isWhitespace s hne
  have h1 : (s.dropWhile Char.isWhitespace).head? = some c := by rw [← hr]; rfl
  have heq : (s.dropWhile Char.isWhitespace).head hne = c :=
    Option.some.inj ((List.head?_eq_head hne).symm.trans h1)
  rw [heq] at hth
  simp [hth]

/-- The rows produced by the reader loop, as a filterMap over the lines. -/
theorem read_file_eq (lines : List Str) :
    read_file lines = lines.filterMap
      (fun line => if pyStrip line ≠ [] then some (pySplit (pyStrip line)) else none) := by
  have hgen : ∀ (ls : List Str) (acc : List (List Str)),
      ls.foldl (fun data line =>
        let s := pyStrip line
        if s ≠ [] then data ++ [pySplit s] else data) acc
      = acc ++ ls.filterMap
        (fun line => if pyStrip line ≠ [] then some (pySplit (pyStrip line)) else none) := by
    intro ls
    induction ls with
    | nil => intro acc; simp
    | cons l ls ih =>
      intro acc
      simp only [List.foldl_cons, List.filterMap_cons]
      by_cases hs : pyStrip l ≠ []
      · rw [if_pos hs, if_pos hs, ih]
        simp
      · rw [if_neg hs, if_neg hs, ih]
  exact hgen lines []

/-- C10: every row returned by read_file is a nonempty list of nonempty,
whitespace-free tokens (blank lines are skipped, never yielding an empty row);
consequently the first-token access energies[i][0] used by both serializers
cannot fail on an empty row for any valid frame index. -/
theorem C10_theorem (lines : List Str) :
    (∀ row ∈ read_file lines, row ≠ [] ∧ ∀ tok ∈ row, tok ≠ [] ∧ ∀ c ∈ tok, ¬ c.isWhitespace)
    ∧ (∀ i, i < (read_file lines).length → ((read_file lines).getD i []).head?.isSome) := by
  have hrow : ∀ row ∈ read_file lines,
      row ≠ [] ∧ ∀ tok ∈ row, tok ≠ [] ∧ ∀ c ∈ tok, ¬ c.isWhitespace := by
    intro row hrow
    rw [read_file_eq] at hrow
    obtain ⟨line, -, hline⟩ := List.mem_filterMap.mp hrow
    by_cases hs : pyStrip line ≠ []
    · rw [if_pos hs] at hline
      cases Option.some.inj hline
      constructor
      · obtain ⟨c, rest, hcr⟩ := List.exists_cons_of_ne_nil hs
        have hc := pyStrip_head line c rest hcr
        rw [hcr]
        show pySplitAux [] (c :: rest) ≠ []
        simp only [pySplitAux]
        rw [if_neg (by simpa using hc)]
        exact pySplitAux_ne_nil rest [c] (by simp)
      · intro tok htok
        exact pySplit_sound _ tok htok
    · rw [if_neg hs] at hline
      exact Option.noConfusion hline
  refine ⟨hrow, ?_⟩
  intro i hi
  have hmem : (read_file lines).getD i [] ∈ read_file lines := by
    rw [List.getD_eq_getElem _ [] hi]
    exact List.getElem_mem hi
  obtain ⟨hne, -⟩ := hrow _ hmem
  cases hrf : (read_file lines).getD i [] with
  | nil => exact absurd hrf hne
  | cons a l => simp

/-- C10 witness: the invariant evaluated on a concrete file with a padded line,
a blank line and a simple line. -/
theorem C10_witness :
    ([str "a", str "b"] ≠ [] ∧ ∀ tok ∈ [str "a", str "b"], tok ≠ [] ∧
      ∀ c ∈ tok, ¬ c.isWhitespace)
    ∧ ((read_file [str " a b ", str "", str "x"]).getD 0 []).head?.isSome :=
  ⟨(C10_theorem [str " a b ", str "", str "x"]).1 [str "a", str "b"] (by decide),
   (C10_theorem [str " a b ", str "", str "x"]).2 0 (by decide)⟩

/-! ### Splitter output streams (C8) -/

theorem processFrame_energy_box (st st' : SplitOut) (fr : List Str)
    (h : processFrame st fr = some st') :
    st'.energy = st.energy ++ [dictGet (parse_labels (fr.getD 1 [])) (str "energy") []]
    ∧ st'.box = st.box ++ (match parse_pbc (fr.getD 1 []) with
        | some p => if p ≠ [] ∧ p ≠ str "F F F" then [p] else []
        | none => []) := by
  simp only [processFrame] at h
  split at h
  · exact Option.noConfusion h
  · split at h
    · exact Option.noConfusion h
    · split at h
      · exact Option.noConfusion h
      · split at h
        · exact Option.noConfusion h
        · rename_i sp pos fo heq
          cases Option.some.inj h
          constructor
          · rfl
          · show (match parse_pbc (fr.getD 1 []) with
              | some p => if p ≠ [] ∧ p ≠ str "F F F" then st.box ++ [p] else st.box
              | none => st.box) = _
            rcases hp : parse_pbc (fr.getD 1 []) with _ | p
            · simp
            · by_cases hc : p ≠ [] ∧ p ≠ str "F F F"
              · simp [hc]
              · simp [hc]

theorem splitFold_energy_box (frames : List (List Str)) : ∀ st out,
    frames.foldlM processFrame st = some out →
    out.energy = st.energy
      ++ frames.map (fun fr => dictGet (parse_labels (fr.getD 1 [])) (str "energy") [])
    ∧ out.box = st.box ++ frames.filterMap (fun fr =>
        match parse_pbc (fr.getD 1 []) with
        | some p => if p ≠ [] ∧ p ≠ str "F F F" then some p else none
        | none => none) := by
  induction frames with
  | nil =>
    intro st out h
    simp only [List.foldlM_nil] at h
    cases Option.some.inj h
    simp
  | cons fr frames ih =>
    intro st out h
    rw [List.foldlM_cons] at h
    cases hst : processFrame st fr with
    | none => rw [hst] at h; exact Option.noConfusion h
    | some st1 =>
      rw [hst] at h
      have h2 : frames.foldlM processFrame st1 = some out := h
      obtain ⟨he, hb⟩ := processFrame_energy_box st st1 fr hst
      obtain ⟨he2, hb2⟩ := ih st1 out h2
      constructor
      · rw [he2, he]
        simp [List.append_assoc]
      · rw [hb2, hb, List.filterMap_cons]
        rcases hp : parse_pbc (fr.getD 1 []) with _ | p
        · simp only [hp]
          simp
        · simp only [hp]
          by_cases hc : p ≠ [] ∧ p ≠ str "F F F"
          · rw [if_pos hc, if_pos hc]
            simp [List.append_assoc]
          · rw [if_neg hc, if_neg hc]
            simp

/-- C8: for every successfully split extended-format input, the energy stream
has exactly one line per grouped frame, holding the frame's energy label value
(the empty string when that label is absent), and the box stream has a line
exactly for those frames whose extracted pbc token exists and differs from the
non-periodic default F F F. -/
theorem C8_theorem (lines : List Str) (out : SplitOut)
    (h : split_extxyz lines = some out) :
    out.energy = (split_frames lines).map
      (fun fr => dictGet (parse_labels (fr.getD 1 [])) (str "energy") [])
    ∧ out.box = (split_frames lines).filterMap (fun fr =>
        match parse_pbc (fr.getD 1 []) with
        | some p => if p ≠ [] ∧ p ≠ str "F F F" then some p else none
        | none => none) := by
  have hmain := splitFold_energy_box (split_frames lines)
    { label_files := [], energy := [], box := [], species := [], coord := [], force := [] }
    out h
  simpa using hmain

/-- C8 witness: a two-frame file where the first frame has an energy label and
a periodic box and the second has neither; the energy stream has one line per
frame (the second empty) and the box stream only the first frame's token. -/
theorem C8_witness :
    (split_extxyz [str "1", str "Properties=species:S:1:pos:R:3 energy=5 pbc=\"T T T\"",
        str "H 1 2 3", str "1", str "Properties=species:S:1:pos:R:3 pbc=\"F F F\"",
        str "O 1 2 3"]).map SplitOut.energy = some [str "5", []]
    ∧ (split_extxyz [str "1", str "Properties=species:S:1:pos:R:3 energy=5 pbc=\"T T T\"",
        str "H 1 2 3", str "1", str "Properties=species:S:1:pos:R:3 pbc=\"F F F\"",
        str "O 1 2 3"]).map SplitOut.box = some [str "T T T"] := by
  rcases hs : split_extxyz [str "1",
      str "Properties=species:S:1:pos:R:3 energy=5 pbc=\"T T T\"",
      str "H 1 2 3", str "1", str "Properties=species:S:1:pos:R:3 pbc=\"F F F\"",
      str "O 1 2 3"] with _ | out
  · exact absurd hs (by decide)
  · obtain ⟨he, hb⟩ := C8_theorem _ out hs
    constructor
    · show some out.energy = some [str "5", []]
      rw [he]
      decide
    · show some out.box = some [str "T T T"]
      rw [hb]
      decide

/-! ### String utility lemmas for the round trip (C1) -/

theorem strJoin_cons (sep x : Str) (xs : List Str) (h : xs ≠ []) :
    strJoin sep (x :: xs) = x ++ sep ++ strJoin sep xs := by
  obtain ⟨y, ys, rfl⟩ := List.exists_cons_of_ne_nil h
  rfl

theorem strJoin_append (sep : Str) : ∀ (xs ys : List Str), xs ≠ [] → ys ≠ [] →
    strJoin sep (xs ++ ys) = strJoin sep xs ++ sep ++ strJoin sep ys := by
  intro xs
  induction xs with
  | nil => intro ys h hy; cases h rfl
  | cons x xs ih =>
    intro ys hx hy
    cases xs with
    | nil =>
      rw [List.singleton_append, strJoin_cons sep x ys hy]
      rfl
    | cons x2 xs2 =>
      rw [List.cons_append,
        strJoin_cons sep x ((x2 :: xs2) ++ ys) (by simp),
        ih ys (by simp) hy,
        strJoin_cons sep x (x2 :: xs2) (by simp)]
      simp [List.append_assoc]

theorem strJoin_ne_nil (sep : Str) (toks : List Str) (hne : toks ≠ [])
    (h : ∀ t ∈ toks, t ≠ []) : strJoin sep toks ≠ [] := by
  cases toks with
  | nil => cases hne rfl
  | cons t ts =>
    cases ts with
    | nil => exact h t (by simp)
    | cons t2 ts2 =>
      have := h t (by simp)
      simp only [strJoin]
      intro hcontra
      rcases List.append_eq_nil.mp hcontra with ⟨h1, -⟩
      rcases List.append_eq_nil.mp h1 with ⟨h2, -⟩
      exact this h2

theorem mem_strJoin (sep : Str) : ∀ (toks : List Str) (c : Char),
    c ∈ strJoin sep toks → c ∈ sep ∨ ∃ t ∈ toks, c ∈ t := by
  intro toks
  induction toks with
  | nil => intro c hc; simp [strJoin] at hc
  | cons t ts ih =>
    intro c hc
    cases ts with
    | nil => exact Or.inr ⟨t, by simp, hc⟩
    | cons t2 ts2 =>
      simp only [strJoin] at hc
      rcases List.mem_append.mp hc with h1 | h2
      · rcases List.mem_append.mp h1 with h3 | h4
        · exact Or.inr ⟨t, by simp, h3⟩
        · exact Or.inl h4
      · rcases ih c h2 with h5 | ⟨u, hu, hcu⟩
        · exact Or.inl h5
        · exact Or.inr ⟨u, List.mem_cons_of_mem _ hu, hcu⟩

theorem strJoin_head? (sep x : Str) (xs : List Str) (hx : x ≠ []) :
    (strJoin sep (x :: xs)).head? = x.head? := by
  cases xs with
  | nil => rfl
  | cons y ys =>
    obtain ⟨c, t, rfl⟩ := List.exists_cons_of_ne_nil hx
    rfl

theorem strJoin_getLast_not_ws (sep : Str) : ∀ (toks : List Str), toks ≠ [] →
    (∀ t ∈ toks, goodTok t) →
    ∃ c, (strJoin sep toks).getLast? = some c ∧ ¬ c.isWhitespace := by
  intro toks
  induction toks with
  | nil => intro h; cases h rfl
  | cons t ts ih =>
    intro _ hg
    cases ts with
    | nil =>
      obtain ⟨hne, hns⟩ := hg t (by simp)
      refine ⟨(strJoin sep [t]).getLast hne, List.getLast?_eq_getLast _ _, ?_⟩
      exact hns _ (List.getLast_mem hne)
    | cons t2 ts2 =>
      obtain ⟨c, hc, hcw⟩ := ih (by simp) (fun u hu => hg u (List.mem_cons_of_mem _ hu))
      refine ⟨c, ?_, hcw⟩
      have hne2 : strJoin sep (t2 :: ts2) ≠ [] :=
        strJoin_ne_nil sep _ (by simp) (fun u hu => (hg u (List.mem_cons_of_mem _ hu)).1)
      rw [strJoin_cons sep t (t2 :: ts2) (by simp), List.getLast?_append, hc]
      rfl

theorem pySplitAux_token : ∀ (t cur rest : Str), (∀ c ∈ t, ¬ c.isWhitespace) →
    (cur ≠ [] ∨ t ≠ []) →
    pySplitAux cur (t ++ ' ' :: rest) = (cur.reverse ++ t) :: pySplitAux [] rest := by
  intro t
  induction t with
  | nil =>
    intro cur rest _ hne
    rcases hne with hc | ht
    · show pySplitAux cur (' ' :: rest) = _
      simp only [pySplitAux]
      rw [if_pos (by decide), if_neg hc]
      simp
    · cases ht rfl
  | cons a t ih =>
    intro cur rest hg hne
    show pySplitAux cur (a :: (t ++ ' ' :: rest)) = _
    simp only [pySplitAux]
    rw [if_neg (by simpa using hg a (by simp))]
    rw [ih (a :: cur) rest (fun c hc => hg c (List.mem_cons_of_mem _ hc)) (Or.inl (by simp))]
    simp [List.append_assoc]

theorem pySplitAux_last : ∀ (t cur : Str), (∀ c ∈ t, ¬ c.isWhitespace) →
    (cur ≠ [] ∨ t ≠ []) → pySplitAux cur t = [cur.reverse ++ t] := by
  intro t
  induction t with
  | nil =>
    intro cur _ hne
    rcases hne with hc | ht
    · simp [pySplitAux, hc]
    · cases ht rfl
  | cons a t ih =>
    intro cur hg _
    show pySplitAux cur (a :: t) = _
    simp only [pySplitAux]
    rw [if_neg (by simpa using hg a (by simp))]
    rw [ih (a :: cur) (fun c hc => hg c (List.mem_cons_of_mem _ hc)) (Or.inl (by simp))]
    simp [List.append_assoc]

theorem pySplit_token (t rest : Str) (hg : ∀ c ∈ t, ¬ c.isWhitespace) (ht : t ≠ []) :
    pySplit (t ++ ' ' :: rest) = t :: pySplit rest := by
  unfold pySplit
  rw [pySplitAux_token t [] rest hg (Or.inr ht)]
  simp

theorem pySplit_single (t : Str) (hg : ∀ c ∈ t, ¬ c.isWhitespace) (ht : t ≠ []) :
    pySplit t = [t] := by
  unfold pySplit
  rw [pySplitAux_last t [] hg (Or.inr ht)]
  simp

theorem pySplit_join : ∀ (toks : List Str), (∀ t ∈ toks, goodTok t) →
    pySplit (strJoin (str " ") toks) = toks := by
  intro toks
  induction toks with
  | nil => intro _; rfl
  | cons t ts ih =>
    intro hg
    cases ts with
    | nil =>
      obtain ⟨hne, hns⟩ := hg t (by simp)
      exact pySplit_single t hns hne
    | cons t2 ts2 =>
      obtain ⟨hne, hns⟩ := hg t (by simp)
      rw [strJoin_cons _ t (t2 :: ts2) (by simp), List.append_assoc]
      have hstep : (str " " : Str) ++ strJoin (str " ") (t2 :: ts2)
          = ' ' :: strJoin (str " ") (t2 :: ts2) := rfl
      rw [hstep, pySplit_token t _ hns hne,
        ih (fun u hu => hg u (List.mem_cons_of_mem _ hu))]

/-! ### Character and natStr lemmas -/

theorem ws_cases (c : Char) (h : c.isWhitespace = true) :
    c = ' ' ∨ c = '\t' ∨ c = '\r' ∨ c = '\n' := by
  simp only [Char.isWhitespace, Bool.or_eq_true, decide_eq_true_eq] at h
  tauto

theorem digit_not_ws (c : Char) (h : c.isDigit = true) : ¬ c.isWhitespace := by
  intro hw
  rcases ws_cases c hw with rfl | rfl | rfl | rfl <;> exact absurd h (by decide)

theorem word_not_ws (c : Char) (h : isWordChar c = true) : ¬ c.isWhitespace := by
  intro hw
  rcases ws_cases c hw with rfl | rfl | rfl | rfl <;> exact absurd h (by decide)

theorem digitChar_isDigit (d : Nat) (h : d < 10) : (digitChar d).isDigit = true := by
  interval_cases d <;> decide

theorem natStrAux_mem : ∀ (fuel n : Nat) (acc : Str) (c : Char),
    c ∈ natStrAux fuel n acc → c ∈ acc ∨ c.isDigit = true := by
  intro fuel
  induction fuel with
  | zero => intro n acc c hc; exact Or.inl hc
  | succ fuel ih =>
    intro n acc c hc
    cases n with
    | zero => exact Or.inl hc
    | succ m =>
      rcases ih ((m + 1) / 10) _ c hc with hacc | hd
      · rcases List.mem_cons.mp hacc with rfl | h2
        · exact Or.inr (digitChar_isDigit _ (Nat.mod_lt _ (by omega)))
        · exact Or.inl h2
      · exact Or.inr hd

theorem natStrAux_ne_nil : ∀ (fuel n : Nat) (acc : Str), acc ≠ [] →
    natStrAux fuel n acc ≠ [] := by
  intro fuel
  induction fuel with
  | zero => intro n acc h; exact h
  | succ fuel ih =>
    intro n acc h
    cases n with
    | zero => exact h
    | succ m => exact ih ((m + 1) / 10) _ (by simp)

theorem natStr_digits (n : Nat) : ∀ c ∈ natStr n, c.isDigit = true := by
  intro c hc
  unfold natStr at hc
  split at hc
  · rcases List.mem_singleton.mp hc with rfl
    exact digitChar_isDigit 0 (by omega)
  · rcases natStrAux_mem n n [] c hc with h | h
    · simp at h
    · exact h

theorem natStr_ne_nil (n : Nat) : natStr n ≠ [] := by
  unfold natStr
  split
  · simp
  · rename_i hn
    cases n with
    | zero => cases hn rfl
    | succ m =>
      show natStrAux (m + 1) (m + 1) [] ≠ []
      exact natStrAux_ne_nil m ((m + 1) / 10) _ (by simp)

theorem pyIsDigitStr_natStr (n : Nat) : pyIsDigitStr (natStr n) = true := by
  unfold pyIsDigitStr
  rw [Bool.and_eq_true]
  constructor
  · simpa [List.isEmpty_iff] using natStr_ne_nil n
  · rw [List.all_eq_true]
    exact natStr_digits n

/-! ### Strip and frame-grouping lemmas -/

theorem pyStrip_all (s : Str) (h : ∀ c ∈ s, ¬ c.isWhitespace) : pyStrip s = s := by
  unfold pyStrip
  have hdrop : s.dropWhile Char.isWhitespace = s := by
    cases s with
    | nil => rfl
    | cons c cs => exact List.dropWhile_cons_of_neg (by simpa using h c (by simp))
  rw [hdrop, List.rdropWhile_eq_self_iff]
  intro hl
  exact h _ (List.getLast_mem hl)

theorem pyStrip_id (s : Str) (a b : Char) (ha : s.head? = some a) (haw : ¬ a.isWhitespace)
    (hb : s.getLast? = some b) (hbw : ¬ b.isWhitespace) : pyStrip s = s := by
  unfold pyStrip
  have hdrop : s.dropWhile Char.isWhitespace = s := by
    cases s with
    | nil => exact Option.noConfusion ha
    | cons c cs =>
      have : c = a := by simpa using ha
      subst this
      exact List.dropWhile_cons_of_neg (by simpa using haw)
  rw [hdrop, List.rdropWhile_eq_self_iff]
  intro hl
  have h2 := List.getLast?_eq_getLast s hl
  rw [hb] at h2
  have heq : b = s.getLast hl := Option.some.inj h2
  rw [← heq]
  exact hbw

theorem intBodyOk_digits (t : Str) (hne : t ≠ []) (h : ∀ c ∈ t, c.isDigit = true) :
    intBodyOk t = true := by
  obtain ⟨c, cs, rfl⟩ := List.exists_cons_of_ne_nil hne
  have hd : cs.dropWhile Char.isDigit = [] :=
    List.dropWhile_eq_nil_iff.mpr (fun x hx => h x (List.mem_cons_of_mem _ hx))
  simp [intBodyOk, h c (by simp), hd, intTailOk, intTailOkAux]

theorem pyIntOk_natStr (n : Nat) : pyIntOk (natStr n) = true := by
  have hstrip : pyStrip (natStr n) = natStr n :=
    pyStrip_all _ (fun c hc => digit_not_ws c (natStr_digits n c hc))
  obtain ⟨c, cs, hcc⟩ := List.exists_cons_of_ne_nil (natStr_ne_nil n)
  have hcd : c.isDigit = true := natStr_digits n c (by rw [hcc]; simp)
  have hsign : ¬ (c = '+' ∨ c = '-') := by
    rintro (rfl | rfl) <;> exact absurd hcd (by decide)
  unfold pyIntOk
  rw [hstrip, hcc]
  show (if c = '+' ∨ c = '-' then intBodyOk cs else intBodyOk (c :: cs)) = true
  rw [if_neg hsign]
  exact intBodyOk_digits _ (by simp) (by rw [← hcc]; exact natStr_digits n)

theorem pyIsDigitStr_false_of_mem (s : Str) (c : Char) (hc : c ∈ s)
    (hcd : ¬ c.isDigit = true) : pyIsDigitStr s = false := by
  have hall : s.all Char.isDigit = false := by
    by_contra h
    rw [Bool.not_eq_false, List.all_eq_true] at h
    exact hcd (h c hc)
  simp [pyIsDigitStr, hall]

theorem splitFramesAux_nondigit : ∀ (rest ls cur : List Str),
    (∀ l ∈ rest, pyStrip l = l ∧ pyIsDigitStr l = false) →
    splitFramesAux cur (rest ++ ls) = splitFramesAux (cur ++ rest) ls := by
  intro rest
  induction rest with
  | nil => intro ls cur _; simp
  | cons l rest ih =>
    intro ls cur h
    obtain ⟨hs, hd⟩ := h l (by simp)
    show splitFramesAux cur (l :: (rest ++ ls)) = _
    simp only [splitFramesAux]
    rw [hs, hd]
    simp only [Bool.false_eq_true, if_false]
    rw [ih ls (cur ++ [l]) (fun u hu => h u (List.mem_cons_of_mem _ hu))]
    simp [List.append_assoc]

theorem splitFramesAux_flatten : ∀ (blocks : List (List Str)) (cur : List Str),
    cur ≠ [] → (∀ b ∈ blocks, WFBlock b) →
    splitFramesAux cur blocks.flatten = cur :: blocks := by
  intro blocks
  induction blocks with
  | nil => intro cur hc _; simp [splitFramesAux, hc]
  | cons b bs ih =>
    intro cur hc hwf
    obtain ⟨d, rest, rfl, hds, hdd, hrest⟩ := hwf b (by simp)
    rw [List.flatten_cons, List.cons_append]
    show splitFramesAux cur (d :: (rest ++ bs.flatten)) = _
    simp only [splitFramesAux]
    rw [hds, hdd]
    simp only [if_true]
    rw [if_neg hc]
    rw [splitFramesAux_nondigit rest bs.flatten [d] hrest]
    rw [ih ([d] ++ rest) (by simp) (fun u hu => hwf u (List.mem_cons_of_mem _ hu))]
    rfl

theorem split_frames_flatten (blocks : List (List Str))
    (hwf : ∀ b ∈ blocks, WFBlock b) : split_frames blocks.flatten = blocks := by
  cases blocks with
  | nil => rfl
  | cons b bs =>
    obtain ⟨d, rest, rfl, hds, hdd, hrest⟩ := hwf b (by simp)
    unfold split_frames
    rw [List.flatten_cons, List.cons_append]
    show splitFramesAux [] (d :: (rest ++ bs.flatten)) = _
    simp only [splitFramesAux]
    rw [hds, hdd]
    simp only [if_true, if_pos rfl]
    rw [splitFramesAux_nondigit rest bs.flatten [d] hrest]
    rw [splitFramesAux_flatten bs ([d] ++ rest) (by simp)
      (fun u hu => hwf u (List.mem_cons_of_mem _ hu))]
    rfl

/-! ### File-line splitting lemmas -/

theorem splitNlAux_no_nl : ∀ (l : Str), '\n' ∉ l → splitNlAux l = [l] := by
  intro l
  induction l with
  | nil => intro _; rfl
  | cons c cs ih =>
    intro h
    have hc : ¬ c = '\n' := fun hh => h (hh ▸ List.mem_cons_self _ _)
    simp only [splitNlAux]
    rw [if_neg hc, ih (fun hm => h (List.mem_cons_of_mem _ hm))]

theorem splitNlAux_token : ∀ (l rest : Str), '\n' ∉ l →
    splitNlAux (l ++ '\n' :: rest) = l :: splitNlAux rest := by
  intro l
  induction l with
  | nil =>
    intro rest _
    show splitNlAux ('\n' :: rest) = _
    simp [splitNlAux]
  | cons c cs ih =>
    intro rest h
    have hc : ¬ c = '\n' := fun hh => h (hh ▸ List.mem_cons_self _ _)
    show splitNlAux (c :: (cs ++ '\n' :: rest)) = _
    simp only [splitNlAux]
    rw [if_neg hc, ih rest (fun hm => h (List.mem_cons_of_mem _ hm))]

theorem splitNl_join : ∀ (lines : List Str), lines ≠ [] →
    (∀ l ∈ lines, '\n' ∉ l) →
    splitNlAux (strJoin (str "\n") lines) = lines := by
  intro lines
  induction lines with
  | nil => intro h; cases h rfl
  | cons l ls ih =>
    intro _ hnl
    cases ls with
    | nil => exact splitNlAux_no_nl l (hnl l (by simp))
    | cons l2 ls2 =>
      rw [strJoin_cons _ l (l2 :: ls2) (by simp), List.append_assoc]
      have hstep : (str "\n" : Str) ++ strJoin (str "\n") (l2 :: ls2)
          = '\n' :: strJoin (str "\n") (l2 :: ls2) := rfl
      rw [hstep, splitNlAux_token l _ (hnl l (by simp)),
        ih (by simp) (fun u hu => hnl u (List.mem_cons_of_mem _ hu))]

theorem fileLines_join (lines : List Str) (hne : lines ≠ [])
    (h : ∀ l ∈ lines, l ≠ [] ∧ '\n' ∉ l) :
    fileLines (strJoin (str "\n") lines) = lines := by
  unfold fileLines
  rw [if_neg (strJoin_ne_nil _ lines hne (fun l hl => (h l hl).1))]
  exact splitNl_join lines hne (fun l hl => (h l hl).2)

/-! ### Regex-scan lemmas (findKV, parse_pbc) -/

theorem takeWhile_append_all {α : Type} (p : α → Bool) :
    ∀ (l r : List α), (∀ x ∈ l, p x = true) →
    (l ++ r).takeWhile p = l ++ r.takeWhile p := by
  intro l
  induction l with
  | nil => intro r _; rfl
  | cons a l ih =>
    intro r h
    rw [List.cons_append, List.takeWhile_cons_of_pos (h a (by simp)),
      ih r (fun x hx => h x (List.mem_cons_of_mem _ hx)), List.cons_append]

theorem dropWhile_append_all {α : Type} (p : α → Bool) :
    ∀ (l r : List α), (∀ x ∈ l, p x = true) →
    (l ++ r).dropWhile p = r.dropWhile p := by
  intro l
  induction l with
  | nil => intro r _; rfl
  | cons a l ih =>
    intro r h
    rw [List.cons_append, List.dropWhile_cons_of_pos (h a (by simp)),
      ih r (fun x hx => h x (List.mem_cons_of_mem _ hx))]

theorem findKVAux_fuel : ∀ (f : Nat) (s : Str), s.length ≤ f →
    findKVAux f s = findKVAux s.length s := by
  intro f
  induction f using Nat.strong_induction_on with
  | _ f ih =>
    intro s hs
    cases f with
    | zero =>
      cases s with
      | nil => rfl
      | cons c cs => simp at hs
    | succ f =>
      cases s with
      | nil => rfl
      | cons c cs =>
        have hcs : cs.length ≤ f := by simpa using hs
        have hihcs : findKVAux f cs = findKVAux cs.length cs :=
          ih f (Nat.lt_succ_self f) cs hcs
        show findKVAux (f + 1) (c :: cs) = findKVAux (cs.length + 1) (c :: cs)
        simp only [findKVAux]
        by_cases hw : isWordChar c
        · rw [if_pos hw, if_pos hw]
          by_cases hh : ((c :: cs).dropWhile isWordChar).head? = some '='
          · rw [if_pos hh, if_pos hh]
            by_cases hv : (((c :: cs).dropWhile isWordChar).tail).takeWhile
                (fun x => x ≠ ' ') = []
            · rw [if_pos hv, if_pos hv, hihcs]
            · rw [if_neg hv, if_neg hv]
              have hd : ((((c :: cs).dropWhile isWordChar).tail).dropWhile
                  (fun x => decide (x ≠ ' '))).length ≤ cs.length := by
                have h1 := (@List.dropWhile_suffix _
                  (((c :: cs).dropWhile isWordChar).tail)
                  (fun x => decide (x ≠ ' '))).sublist.length_le
                have h2 := (@List.dropWhile_suffix _ (c :: cs) isWordChar).sublist.length_le
                have h3 := List.length_tail ((c :: cs).dropWhile isWordChar)
                have h5 : 1 ≤ ((c :: cs).dropWhile isWordChar).length := by
                  cases hm : (c :: cs).dropWhile isWordChar with
                  | nil => rw [hm] at hh; simp at hh
                  | cons a l => simp
                simp only [List.length_cons] at h2
                omega
              rw [ih f (Nat.lt_succ_self f) _ (Nat.le_trans hd hcs),
                ih cs.length (Nat.lt_succ_of_le hcs) _ hd]
          · rw [if_neg hh, if_neg hh, hihcs]
        · rw [if_neg hw, if_neg hw, hihcs]

theorem findKV_skip (c : Char) (cs : Str) (h : ¬ isWordChar c = true) :
    findKV (c :: cs) = findKV cs := by
  show findKVAux (cs.length + 1) (c :: cs) = findKV cs
  simp only [findKVAux]
  rw [if_neg h]
  rfl

theorem findKVAux_no_eq : ∀ (f : Nat) (s : Str), '=' ∉ s → findKVAux f s = [] := by
  intro f
  induction f with
  | zero => intro s _; rfl
  | succ f ih =>
    intro s hs
    cases s with
    | nil => rfl
    | cons c cs =>
      have hcs : '=' ∉ cs := fun hm => hs (List.mem_cons_of_mem _ hm)
      simp only [findKVAux]
      by_cases hw : isWordChar c
      · rw [if_pos hw]
        by_cases hh : ((c :: cs).dropWhile isWordChar).head? = some '='
        · exfalso
          have hmem : '=' ∈ (c :: cs).dropWhile isWordChar := by
            rcases hm : (c :: cs).dropWhile isWordChar with _ | ⟨c0, v0⟩
            · rw [hm] at hh; simp at hh
            · rw [hm] at hh
              simp only [List.head?_cons] at hh
              rw [Option.some.inj hh]
              simp
          exact hs ((List.dropWhile_suffix isWordChar).mem hmem)
        · rw [if_neg hh]
          exact ih cs hcs
      · rw [if_neg hw]
        exact ih cs hcs

theorem findKV_no_eq (s : Str) (h : '=' ∉ s) : findKV s = [] :=
  findKVAux_no_eq s.length s h

theorem findKV_match (k v0 : Str) (hk : k ≠ []) (hkw : ∀ c ∈ k, isWordChar c = true)
    (hv0 : ∀ h : v0 ≠ [], v0.head h ≠ ' ') (hv0ne : v0 ≠ []) :
    findKV (k ++ '=' :: v0)
      = (k, v0.takeWhile (fun x => x ≠ ' '))
        :: findKV (v0.dropWhile (fun x => x ≠ ' ')) := by
  obtain ⟨kc, k2, rfl⟩ := List.exists_cons_of_ne_nil hk
  obtain ⟨vc, v2, rfl⟩ := List.exists_cons_of_ne_nil hv0ne
  have hvc : vc ≠ ' ' := by simpa using hv0 (by simp)
  have hdw : ((kc :: k2) ++ '=' :: vc :: v2).dropWhile isWordChar = '=' :: vc :: v2 := by
    rw [dropWhile_append_all isWordChar _ _ hkw]
    exact List.dropWhile_cons_of_neg (by decide)
  have htw : ((kc :: k2) ++ '=' :: vc :: v2).takeWhile isWordChar = kc :: k2 := by
    rw [takeWhile_append_all isWordChar _ _ hkw]
    rw [List.takeWhile_cons_of_neg (by decide)]
    simp
  have hlen : ((kc :: k2) ++ '=' :: vc :: v2).length
      = (k2.length + (v2.length + 2)) + 1 := by
    simp only [List.length_append, List.length_cons]
    omega
  have hd : ((vc :: v2).dropWhile (fun x => decide (x ≠ ' '))).length
      ≤ k2.length + (v2.length + 2) := by
    have h1 := (@List.dropWhile_suffix _ (vc :: v2)
      (fun x => decide (x ≠ ' '))).sublist.length_le
    simp only [List.length_cons] at h1
    omega
  have hshape : (kc :: k2) ++ '=' :: vc :: v2 = kc :: (k2 ++ '=' :: vc :: v2) := rfl
  show findKVAux ((kc :: k2) ++ '=' :: vc :: v2).length ((kc :: k2) ++ '=' :: vc :: v2) = _
  rw [hlen, hshape]
  simp only [findKVAux]
  rw [← hshape, if_pos (hkw kc (by simp)), hdw]
  rw [if_pos (show ('=' :: vc :: v2 : Str).head? = some '=' from rfl)]
  rw [htw]
  rw [show ('=' :: vc :: v2 : Str).tail = vc :: v2 from rfl]
  rw [if_neg (by rw [List.takeWhile_cons_of_pos (by simpa using hvc)]; simp)]
  rw [findKVAux_fuel _ _ hd]
  rfl

theorem findKV_tokens : ∀ (ps : List (Str × Str)) (tail : Str),
    (∀ p ∈ ps, p.1 ≠ [] ∧ (∀ c ∈ p.1, isWordChar c = true)
      ∧ p.2 ≠ [] ∧ (∀ c ∈ p.2, c ≠ ' ')) →
    (tail = [] ∨ tail.head? = some ' ') →
    findKV ((ps.map (fun p => ' ' :: (p.1 ++ '=' :: p.2))).flatten ++ tail)
      = ps ++ findKV tail := by
  intro ps
  induction ps with
  | nil => intro tail _ _; simp
  | cons p ps ih =>
    intro tail hps htail
    obtain ⟨p1, p2⟩ := p
    obtain ⟨hk, hkw, hv, hvs⟩ := hps (p1, p2) (by simp)
    simp only at hk hkw hv hvs
    obtain ⟨vc, v2, hvv⟩ := List.exists_cons_of_ne_nil hv
    subst hvv
    have hvc : vc ≠ ' ' := hvs vc (by simp)
    rw [List.map_cons, List.flatten_cons]
    have hshape : (' ' :: ((p1, vc :: v2).1 ++ '=' :: (p1, vc :: v2).2))
        ++ (ps.map (fun p => ' ' :: (p.1 ++ '=' :: p.2))).flatten ++ tail
        = ' ' :: (p1 ++ '=' :: ((vc :: v2)
          ++ ((ps.map (fun p => ' ' :: (p.1 ++ '=' :: p.2))).flatten ++ tail))) := by
      simp [List.append_assoc]
    rw [hshape, findKV_skip ' ' _ (by decide)]
    rcases hR : (ps.map (fun p => ' ' :: (p.1 ++ '=' :: p.2))).flatten ++ tail
      with _ | ⟨c0, R2⟩
    · have hps0 : ps = [] := by
        cases ps with
        | nil => rfl
        | cons q qs =>
          rw [List.map_cons, List.flatten_cons] at hR
          simp at hR
      have htail0 : tail = [] := (List.append_eq_nil.mp hR).2
      subst hps0
      subst htail0
      simp only [List.map_nil, List.flatten_nil, List.nil_append, List.append_nil]
      rw [findKV_match p1 (vc :: v2) hk hkw
        (fun h => by simpa using hvc) (by simp)]
      rw [List.takeWhile_eq_self_iff.mpr (by simpa using hvs)]
      rw [List.dropWhile_eq_nil_iff.mpr (by simpa using hvs)]
      simp
    · have h0 : ((ps.map (fun p => ' ' :: (p.1 ++ '=' :: p.2))).flatten ++ tail).head?
          = some c0 := by
        rw [hR]
        rfl
      have hc0 : c0 = ' ' := by
        cases ps with
        | nil =>
          simp only [List.map_nil, List.flatten_nil, List.nil_append] at h0
          rcases htail with rfl | hh
          · simp at h0
          · rw [h0] at hh
            exact Option.some.inj hh
        | cons q qs =>
          rw [List.map_cons, List.flatten_cons, List.cons_append, List.cons_append] at h0
          simp only [List.head?_cons] at h0
          exact (Option.some.inj h0).symm
      subst hc0
      have hv0ne : (vc :: v2) ++ ' ' :: R2 ≠ [] := by simp
      rw [findKV_match p1 ((vc :: v2) ++ ' ' :: R2) hk hkw
        (fun h => by simpa using hvc) hv0ne]
      rw [takeWhile_append_all _ _ _ (by simpa using hvs),
        List.takeWhile_cons_of_neg (by simp), List.append_nil]
      rw [dropWhile_append_all _ _ _ (by simpa using hvs),
        List.dropWhile_cons_of_neg (by simp)]
      rw [findKV_skip ' ' R2 (by decide)]
      have hih := ih tail (fun q hq => hps q (List.mem_cons_of_mem _ hq)) htail
      rw [hR, findKV_skip ' ' R2 (by decide)] at hih
      rw [hih]
      rfl

theorem parse_pbc_skip : ∀ (pre T : Str), '"' ∉ pre → T.head? = some 'p' →
    parse_pbc (pre ++ T) = parse_pbc T := by
  intro pre
  induction pre with
  | nil => intro T _ _; rfl
  | cons x pre ih =>
    intro T hq hT
    obtain ⟨T2, rfl⟩ : ∃ T2, T = 'p' :: T2 := by
      cases T with
      | nil => exact Option.noConfusion hT
      | cons a T2 =>
        simp only [List.head?_cons] at hT
        exact ⟨T2, by rw [Option.some.inj hT]⟩
    have hq2 : '"' ∉ pre := fun h => hq (List.mem_cons_of_mem _ h)
    show parse_pbc (x :: (pre ++ 'p' :: T2)) = _
    simp only [parse_pbc]
    rw [if_neg ?hno]
    · exact ih ('p' :: T2) hq2 rfl
    case hno =>
      intro hcontra
      cases pre with
      | nil => exact absurd (List.cons.inj (List.cons.inj hcontra).2).1 (by decide)
      | cons y pre2 =>
        cases pre2 with
        | nil =>
          exact absurd
            (List.cons.inj (List.cons.inj (List.cons.inj hcontra).2).2).1 (by decide)
        | cons z pre3 =>
          cases pre3 with
          | nil =>
            exact absurd
              (List.cons.inj (List.cons.inj
                (List.cons.inj (List.cons.inj hcontra).2).2).2).1 (by decide)
          | cons w pre4 =>
            cases pre4 with
            | nil =>
              exact absurd
                (List.cons.inj (List.cons.inj (List.cons.inj
                  (List.cons.inj (List.cons.inj hcontra).2).2).2).2).1 (by decide)
            | cons u pre5 =>
              simp only [List.cons_append, List.take_succ_cons, List.take_zero] at hcontra
              have hu : u = '"' := by
                have := List.cons.inj hcontra
                have := List.cons.inj this.2
                have := List.cons.inj this.2
                have := List.cons.inj this.2
                exact (List.cons.inj this.2).1
              exact hq (by rw [← hu]; simp)

theorem parse_pbc_found (pv : Str) (hq : '"' ∉ pv) (hne : pv ≠ []) :
    parse_pbc (str "pbc=" ++ '"' :: (pv ++ ['"'])) = some pv := by
  have hqd : ∀ c ∈ pv, (decide (c ≠ '"')) = true := by
    intro c hc
    simp only [decide_eq_true_eq]
    intro hcc
    exact hq (hcc ▸ hc)
  have htw : (pv ++ ['"']).takeWhile (fun x => x ≠ '"') = pv := by
    rw [takeWhile_append_all _ _ _ hqd]
    rw [List.takeWhile_cons_of_neg (by simp)]
    simp
  have hdw : (pv ++ ['"']).dropWhile (fun x => x ≠ '"') = ['"'] := by
    rw [dropWhile_append_all _ _ _ hqd]
    rw [List.dropWhile_cons_of_neg (by simp)]
  show parse_pbc ('p' :: 'b' :: 'c' :: '=' :: '"' :: (pv ++ ['"'])) = some pv
  simp only [parse_pbc]
  rw [if_pos (by rfl)]
  have hdrop : ('p' :: 'b' :: 'c' :: '=' :: '"' :: (pv ++ ['"'])).drop 5 = pv ++ ['"'] := rfl
  rw [hdrop, htw, hdw]
  rw [if_pos ⟨hne, by simp⟩]

/-! ### Dict and output-file lemmas -/

theorem dictInsert_new (d : List (Str × Str)) (k v : Str) (h : ∀ p ∈ d, p.1 ≠ k) :
    dictInsert d k v = d ++ [(k, v)] := by
  unfold dictInsert
  rw [if_neg]
  intro hcontra
  rw [List.any_eq_true] at hcontra
  obtain ⟨p, hp, hbeq⟩ := hcontra
  exact h p hp (by simpa using hbeq)

theorem foldl_labels_distinct :
    ∀ (ps : List (Str × Str)) (d : List (Str × Str)),
    (∀ p ∈ ps, p.1 ≠ str "Properties" ∧ p.1 ≠ str "pbc") →
    (∀ p ∈ ps, ∀ q ∈ d, q.1 ≠ p.1) →
    (ps.map Prod.fst).Nodup →
    ps.foldl (fun d kv =>
      if kv.1 ≠ str "Properties" ∧ kv.1 ≠ str "pbc" then dictInsert d kv.1 kv.2 else d) d
      = d ++ ps := by
  intro ps
  induction ps with
  | nil => intro d _ _ _; simp
  | cons p ps ih =>
    intro d hex hdis hnd
    have hnd2 : p.1 ∉ ps.map Prod.fst ∧ (ps.map Prod.fst).Nodup := by
      rw [List.map_cons, List.nodup_cons] at hnd
      exact hnd
    rw [List.foldl_cons]
    rw [if_pos (hex p (by simp))]
    rw [dictInsert_new d p.1 p.2 (fun q hq => hdis p (by simp) q hq)]
    rw [ih (d ++ [(p.1, p.2)])
      (fun q hq => hex q (List.mem_cons_of_mem _ hq))
      ?hdis2 hnd2.2]
    · simp
    case hdis2 =>
      intro q hq r hr
      rcases List.mem_append.mp hr with hrd | hrp
      · exact hdis q (List.mem_cons_of_mem _ hq) r hrd
      · rcases List.mem_singleton.mp hrp with rfl
        intro hcontra
        exact hnd2.1 (by
          rw [hcontra]
          exact List.mem_map_of_mem Prod.fst hq)

theorem parse_labels_spec (line pt e0 vj : Str) (ps : List (Str × Str))
    (hps : ∀ p ∈ ps, p.1 ≠ str "Properties" ∧ p.1 ≠ str "pbc" ∧ p.1 ≠ str "energy")
    (hnd : (ps.map Prod.fst).Nodup)
    (hfk : findKV line = (str "Properties", pt) :: ps ++ [(str "energy", e0), (str "pbc", vj)]) :
    parse_labels line = ps ++ [(str "energy", e0)] := by
  unfold parse_labels
  rw [hfk]
  rw [List.cons_append]
  rw [List.foldl_cons]
  rw [if_neg (by simp)]
  have hsplit : ps ++ [(str "energy", e0), (str "pbc", vj)]
      = (ps ++ [(str "energy", e0)]) ++ [(str "pbc", vj)] := by simp
  rw [hsplit, List.foldl_append, List.foldl_append]
  rw [foldl_labels_distinct ps [] (fun p hp => ⟨(hps p hp).1, (hps p hp).2.1⟩)
    (by simp) hnd]
  rw [List.nil_append]
  have h1 : List.foldl (fun d kv =>
      if kv.1 ≠ str "Properties" ∧ kv.1 ≠ str "pbc" then dictInsert d kv.1 kv.2 else d)
      ps [(str "energy", e0)] = ps ++ [(str "energy", e0)] := by
    rw [List.foldl_cons, if_pos
      ⟨fun hc => absurd (show str "energy" = str "Properties" from hc) (by decide),
       fun hc => absurd (show str "energy" = str "pbc" from hc) (by decide)⟩]
    rw [dictInsert_new ps (str "energy") e0 (fun q hq => (hps q hq).2.2)]
    rfl
  rw [h1]
  rw [List.foldl_cons, if_neg (by simp), List.foldl_nil]

theorem dictGet_energy (ps : List (Str × Str)) (e0 : Str)
    (h : ∀ p ∈ ps, p.1 ≠ str "energy") :
    dictGet (ps ++ [(str "energy", e0)]) (str "energy") [] = e0 := by
  unfold dictGet
  rw [List.find?_append]
  have h1 : ps.find? (fun p => p.1 == str "energy") = none := by
    rw [List.find?_eq_none]
    intro p hp
    simpa using h p hp
  rw [h1]
  have h2 : [(str "energy", e0)].find? (fun p => p.1 == str "energy")
      = some (str "energy", e0) :=
    List.find?_cons_of_pos _ (by simp)
  rw [h2]
  rfl

theorem find?_map_update (k line : Str) :
    ∀ (files : List (Str × List Str)),
    (files.map (fun p => if p.1 == k then (p.1, p.2 ++ [line]) else p)).find?
        (fun p => p.1 == k)
      = (files.find? (fun p => p.1 == k)).map (fun p => (p.1, p.2 ++ [line])) := by
  intro files
  induction files with
  | nil => rfl
  | cons p fs ih =>
    rw [List.map_cons]
    by_cases hk : (p.1 == k) = true
    · rw [if_pos hk]
      have h1 : List.find? (fun q => q.1 == k)
          ((p.1, p.2 ++ [line]) ::
            List.map (fun q => if q.1 == k then (q.1, q.2 ++ [line]) else q) fs)
          = some (p.1, p.2 ++ [line]) :=
        List.find?_cons_of_pos _ (by simpa using hk)
      have h2 : List.find? (fun q => q.1 == k) (p :: fs) = some p :=
        List.find?_cons_of_pos _ hk
      rw [h1, h2]
      rfl
    · rw [if_neg hk]
      have h1 : List.find? (fun q => q.1 == k)
          (p :: List.map (fun q => if q.1 == k then (q.1, q.2 ++ [line]) else q) fs)
          = List.find? (fun q => q.1 == k)
            (List.map (fun q => if q.1 == k then (q.1, q.2 ++ [line]) else q) fs) :=
        List.find?_cons_of_neg _ hk
      have h2 : List.find? (fun q => q.1 == k) (p :: fs)
          = List.find? (fun q => q.1 == k) fs :=
        List.find?_cons_of_neg _ hk
      rw [h1, h2]
      exact ih

theorem lookupFile_appendFile_self (files : List (Str × List Str)) (k line : Str) :
    lookupFile (appendFile files k line) k
      = some ((lookupFile files k).getD [] ++ [line]) := by
  unfold appendFile lookupFile
  by_cases hany : files.any (fun p => p.1 == k) = true
  · rw [if_pos hany, find?_map_update]
    have hsome : (files.find? (fun p => p.1 == k)).isSome = true := by
      rw [List.find?_isSome]
      rw [List.any_eq_true] at hany
      exact hany
    obtain ⟨q, hq⟩ := Option.isSome_iff_exists.mp hsome
    rw [hq]
    rfl
  · rw [if_neg hany, List.find?_append]
    have hnone : files.find? (fun p => p.1 == k) = none := by
      rw [List.find?_eq_none]
      intro p hp hcontra
      exact hany (List.any_eq_true.mpr ⟨p, hp, hcontra⟩)
    rw [hnone]
    have h2 : [(k, [line])].find? (fun p => p.1 == k) = some (k, [line]) :=
      List.find?_cons_of_pos _ (by simp)
    rw [h2]
    rfl

theorem find?_map_update_ne (k k2 line : Str) (h : k2 ≠ k) :
    ∀ (files : List (Str × List Str)),
    (files.map (fun p => if p.1 == k then (p.1, p.2 ++ [line]) else p)).find?
        (fun p => p.1 == k2)
      = files.find? (fun p => p.1 == k2) := by
  intro files
  induction files with
  | nil => rfl
  | cons p fs ih =>
    rw [List.map_cons]
    by_cases hk : (p.1 == k) = true
    · rw [if_pos hk]
      have hpk2 : ¬ (p.1 == k2) = true := by
        intro hc
        exact h (by
          have h1 : p.1 = k2 := by simpa using hc
          have h2 : p.1 = k := by simpa using hk
          rw [← h1, h2])
      have h1 : List.find? (fun q => q.1 == k2)
          ((p.1, p.2 ++ [line]) ::
            List.map (fun q => if q.1 == k then (q.1, q.2 ++ [line]) else q) fs)
          = List.find? (fun q => q.1 == k2)
            (List.map (fun q => if q.1 == k then (q.1, q.2 ++ [line]) else q) fs) :=
        List.find?_cons_of_neg _ hpk2
      have h2 : List.find? (fun q => q.1 == k2) (p :: fs)
          = List.find? (fun q => q.1 == k2) fs :=
        List.find?_cons_of_neg _ hpk2
      rw [h1, h2]
      exact ih
    · rw [if_neg hk]
      by_cases hp2 : (p.1 == k2) = true
      · have h1 : List.find? (fun q => q.1 == k2)
            (p :: List.map (fun q => if q.1 == k then (q.1, q.2 ++ [line]) else q) fs)
            = some p := List.find?_cons_of_pos _ hp2
        have h2 : List.find? (fun q => q.1 == k2) (p :: fs) = some p :=
          List.find?_cons_of_pos _ hp2
        rw [h1, h2]
      · have h1 : List.find? (fun q => q.1 == k2)
            (p :: List.map (fun q => if q.1 == k then (q.1, q.2 ++ [line]) else q) fs)
            = List.find? (fun q => q.1 == k2)
              (List.map (fun q => if q.1 == k then (q.1, q.2 ++ [line]) else q) fs) :=
          List.find?_cons_of_neg _ hp2
        have h2 : List.find? (fun q => q.1 == k2) (p :: fs)
            = List.find? (fun q => q.1 == k2) fs :=
          List.find?_cons_of_neg _ hp2
        rw [h1, h2]
        exact ih

theorem lookupFile_appendFile_ne (files : List (Str × List Str)) (k k2 line : Str)
    (h : k2 ≠ k) :
    lookupFile (appendFile files k line) k2 = lookupFile files k2 := by
  unfold appendFile lookupFile
  by_cases hany : files.any (fun p => p.1 == k) = true
  · rw [if_pos hany, find?_map_update_ne k k2 line h files]
  · rw [if_neg hany, List.find?_append]
    have h2 : [(k, [line])].find? (fun p => p.1 == k2) = none := by
      rw [List.find?_eq_none]
      intro p hp
      rcases List.mem_singleton.mp hp with rfl
      simpa using fun hc => h hc.symm
    rw [h2, Option.or_none]

/-! ### Label token and chunk lemmas -/

theorem map_underscore_id : ∀ (w : Str), (∀ c ∈ w, c ≠ ' ') →
    w.map (fun c => if c = ' ' then '_' else c) = w := by
  intro w
  induction w with
  | nil => intro _; rfl
  | cons c cs ih =>
    intro h
    rw [List.map_cons, if_neg (h c (by simp)),
      ih (fun x hx => h x (List.mem_cons_of_mem _ hx))]

theorem labelTok_eq (i : Nat) (p : Str × Option (List Str)) (vs : List Str)
    (hp : p.2 = some vs) (hi : i < vs.length)
    (hv : vs.getD i [] ≠ []) (hsp : ∀ c ∈ vs.getD i [], c ≠ ' ') :
    labelTok i p = some (' ' :: (p.1 ++ '=' :: valAt i p)) := by
  unfold labelTok valAt
  rw [hp]
  simp only [Option.getD_some]
  rw [if_pos hi, if_neg hv, map_underscore_id _ hsp]
  have h1 : (str " " : Str) = [' '] := rfl
  have h2 : (str "=" : Str) = ['='] := rfl
  rw [h1, h2]
  simp [List.append_assoc]

theorem filterMap_labelTok (i : Nat) : ∀ (L : List (Str × Option (List Str))),
    (∀ p ∈ L, labelTok i p = some (' ' :: (p.1 ++ '=' :: valAt i p))) →
    L.filterMap (labelTok i) = L.map (fun p => ' ' :: (p.1 ++ '=' :: valAt i p)) := by
  intro L
  induction L with
  | nil => intro _; rfl
  | cons p ps ih =>
    intro h
    rw [List.filterMap_cons]
    rw [h p (by simp)]
    rw [ih (fun q hq => h q (List.mem_cons_of_mem _ hq))]
    rfl

theorem mapM_except_ok {α β ε : Type} (f : α → Except ε β) (g : α → β) :
    ∀ (l : List α), (∀ a ∈ l, f a = Except.ok (g a)) →
    l.mapM f = Except.ok (l.map g) := by
  intro l
  induction l with
  | nil => intro _; rfl
  | cons a l ih =>
    intro h
    rw [List.mapM_cons, h a (by simp), ih (fun x hx => h x (List.mem_cons_of_mem _ hx))]
    rfl

theorem extxyzAtomLines_ok (i : Nat) (ai ci : List Str) (foRow : Option (List Str))
    (hc : ci.length = ai.length * 3)
    (hf : ∀ fr, foRow = some fr → fr.length = ai.length * 3) :
    extxyzAtomLines i ai ci foRow
      = Except.ok ((List.range ai.length).map (atomLine ai ci foRow)) := by
  unfold extxyzAtomLines
  apply mapM_except_ok
  intro j hj
  have hjn : j < ai.length := List.mem_range.mp hj
  rw [if_neg (show ¬ ai.length ≤ j by omega)]
  rw [if_neg (show ¬ ci.length < (j + 1) * 3 by omega)]
  cases foRow with
  | none => rfl
  | some fr =>
    show (if fr.length < (j + 1) * 3
        then Except.error (PyErr.indexError (incomplete_force_msg i j))
        else Except.ok (ai.getD j [] ++ str " "
          ++ strJoin (str " ") ((ci.drop (j * 3)).take 3) ++ str " "
          ++ strJoin (str " ") ((fr.drop (j * 3)).take 3)))
      = Except.ok (atomLine ai ci (some fr) j)
    rw [if_neg (show ¬ fr.length < (j + 1) * 3 by have := hf fr rfl; omega)]
    rfl

theorem map_getD_range {α : Type} (d : α) : ∀ (l : List α),
    (List.range l.length).map (fun j => l.getD j d) = l := by
  intro l
  induction l with
  | nil => rfl
  | cons a l ih =>
    rw [show (a :: l).length = l.length + 1 from rfl, List.range_succ_eq_map,
      List.map_cons, List.map_map]
    have hcomp : ((fun j => (a :: l).getD j d) ∘ Nat.succ) = (fun j => l.getD j d) := by
      funext j
      rfl
    rw [hcomp, ih]
    rfl

theorem chunks_flatten {α : Type} : ∀ (n : Nat) (l : List α), l.length = n * 3 →
    ((List.range n).map (fun j => (l.drop (j * 3)).take 3)).flatten = l := by
  intro n
  induction n with
  | zero =>
    intro l h
    simp only [Nat.zero_mul] at h
    rw [List.eq_nil_of_length_eq_zero h]
    rfl
  | succ n ih =>
    intro l h
    rw [List.range_succ_eq_map, List.map_cons, List.map_map]
    have hcomp : ((fun j => (l.drop (j * 3)).take 3) ∘ Nat.succ)
        = (fun j => ((l.drop 3).drop (j * 3)).take 3) := by
      funext j
      simp only [Function.comp]
      rw [List.drop_drop]
      have harith : 3 + j * 3 = Nat.succ j * 3 := by omega
      rw [harith]
    rw [hcomp, List.flatten_cons]
    rw [ih (l.drop 3) (by simp only [List.length_drop, h]; omega)]
    simp only [Nat.zero_mul, List.drop_zero]
    exact List.take_append_drop 3 l

theorem chunk3_length (l : List Str) (n j : Nat) (h : l.length = n * 3) (hj : j < n) :
    ((l.drop (j * 3)).take 3).length = 3 := by
  simp only [List.length_take, List.length_drop, h]
  omega

theorem chunk3_subset (l : List Str) (j : Nat) (t : Str)
    (ht : t ∈ (l.drop (j * 3)).take 3) : t ∈ l :=
  List.mem_of_mem_drop (List.mem_of_mem_take ht)

/-! ### Metadata-line lemmas -/

theorem extxyzMeta_eq (L : List (Str × Option (List Str))) (i : Nat)
    (Fo B : Option (List (List Str))) (popt e0 : Str)
    (hlab : ∀ p ∈ L, labelTok i p = some (' ' :: (p.1 ++ '=' :: valAt i p))) :
    extxyzMeta L i Fo B popt e0
      = str "Properties" ++ '=' :: (propVal Fo
        ++ (((labelPairs L i ++ [(str "energy", e0)]).map
              (fun p => ' ' :: (p.1 ++ '=' :: p.2))).flatten
          ++ ' ' :: (str "pbc" ++ '=' :: ('"' :: (pbc_value popt B i ++ ['"']))))) := by
  unfold extxyzMeta
  rw [addLabels_eq, filterMap_labelTok i L hlab]
  have hprops : extxyzProps Fo = str "Properties" ++ '=' :: propVal Fo := by
    cases Fo <;> rfl
  have h1 : (str " energy=" : Str) = [' '] ++ str "energy" ++ ['='] := rfl
  have h2 : (str " pbc=" : Str) = [' '] ++ str "pbc" ++ ['='] := rfl
  rw [hprops, h1, h2]
  unfold labelPairs
  simp [List.append_assoc, List.map_map, Function.comp]
  exact congrArg List.flatten (List.map_congr_left (fun p hp => rfl))

theorem flatten_tokens_head (ps2 : List (Str × Str)) (tail : Str)
    (h : tail.head? = some ' ') :
    ((ps2.map (fun p => ' ' :: (p.1 ++ '=' :: p.2))).flatten ++ tail).head? = some ' ' := by
  cases ps2 with
  | nil => simpa using h
  | cons q qs => rfl

theorem takeWhile_space_nil (l : Str) (h : l.head? = some ' ') :
    l.takeWhile (fun x => decide (x ≠ ' ')) = []
      ∧ l.dropWhile (fun x => decide (x ≠ ' ')) = l := by
  cases l with
  | nil => exact Option.noConfusion h
  | cons a t =>
    have ha : a = ' ' := by simpa using h
    subst ha
    constructor
    · exact List.takeWhile_cons_of_neg (by simp)
    · exact List.dropWhile_cons_of_neg (by simp)

theorem metaLine_findKV (pval : Str) (ps2 : List (Str × Str)) (pv : Str)
    (hpval : pval ≠ [] ∧ ∀ c ∈ pval, c ≠ ' ')
    (hps2 : ∀ p ∈ ps2, p.1 ≠ [] ∧ (∀ c ∈ p.1, isWordChar c = true)
      ∧ p.2 ≠ [] ∧ (∀ c ∈ p.2, c ≠ ' '))
    (hpv : '=' ∉ pv) :
    findKV (str "Properties" ++ '=' :: (pval
        ++ ((ps2.map (fun p => ' ' :: (p.1 ++ '=' :: p.2))).flatten
          ++ ' ' :: (str "pbc" ++ '=' :: ('"' :: (pv ++ ['"']))))))
      = (str "Properties", pval)
        :: (ps2 ++ [(str "pbc",
            ('"' :: (pv ++ ['"'])).takeWhile (fun x => x ≠ ' '))]) := by
  obtain ⟨hp0, hpc⟩ := hpval
  obtain ⟨c0, p2, rfl⟩ := List.exists_cons_of_ne_nil hp0
  have hc0 : c0 ≠ ' ' := hpc c0 (by simp)
  have hFT : ((ps2.map (fun p => ' ' :: (p.1 ++ '=' :: p.2))).flatten
      ++ ' ' :: (str "pbc" ++ '=' :: ('"' :: (pv ++ ['"'])))).head? = some ' ' :=
    flatten_tokens_head ps2 _ rfl
  have hassoc : ((c0 :: p2) : Str)
      ++ ((ps2.map (fun p => ' ' :: (p.1 ++ '=' :: p.2))).flatten
        ++ ' ' :: (str "pbc" ++ '=' :: ('"' :: (pv ++ ['"']))))
      = (c0 :: p2)
      ++ ((ps2.map (fun p => ' ' :: (p.1 ++ '=' :: p.2))).flatten
        ++ ' ' :: (str "pbc" ++ '=' :: ('"' :: (pv ++ ['"'])))) := rfl
  rw [findKV_match (str "Properties")
    ((c0 :: p2) ++ ((ps2.map (fun p => ' ' :: (p.1 ++ '=' :: p.2))).flatten
      ++ ' ' :: (str "pbc" ++ '=' :: ('"' :: (pv ++ ['"'])))))
    (by decide) (by decide)
    (fun h => show c0 ≠ ' ' from hc0) (by simp)]
  have htake : (((c0 :: p2) : Str)
      ++ ((ps2.map (fun p => ' ' :: (p.1 ++ '=' :: p.2))).flatten
        ++ ' ' :: (str "pbc" ++ '=' :: ('"' :: (pv ++ ['"']))))).takeWhile
        (fun x => decide (x ≠ ' ')) = c0 :: p2 := by
    rw [takeWhile_append_all _ _ _ (by intro x hx; simpa using hpc x hx)]
    rw [(takeWhile_space_nil _ hFT).1, List.append_nil]
  have hdrop : (((c0 :: p2) : Str)
      ++ ((ps2.map (fun p => ' ' :: (p.1 ++ '=' :: p.2))).flatten
        ++ ' ' :: (str "pbc" ++ '=' :: ('"' :: (pv ++ ['"']))))).dropWhile
        (fun x => decide (x ≠ ' '))
      = (ps2.map (fun p => ' ' :: (p.1 ++ '=' :: p.2))).flatten
        ++ ' ' :: (str "pbc" ++ '=' :: ('"' :: (pv ++ ['"']))) := by
    rw [dropWhile_append_all _ _ _ (by intro x hx; simpa using hpc x hx)]
    exact (takeWhile_space_nil _ hFT).2
  rw [htake, hdrop]
  rw [findKV_tokens ps2 (' ' :: (str "pbc" ++ '=' :: ('"' :: (pv ++ ['"']))))
    hps2 (Or.inr rfl)]
  rw [findKV_skip ' ' _ (by decide)]
  rw [findKV_match (str "pbc") ('"' :: (pv ++ ['"'])) (by decide) (by decide)
    (fun h => show ('"' : Char) ≠ ' ' from by decide) (by simp)]
  have hno : findKV (('"' :: (pv ++ ['"'])).dropWhile (fun x => decide (x ≠ ' '))) = [] := by
    apply findKV_no_eq
    intro hmem
    have h2 := (List.dropWhile_suffix (fun x => decide (x ≠ ' '))).mem hmem
    rcases List.mem_cons.mp h2 with he | h3
    · exact absurd he (by decide)
    · rcases List.mem_append.mp h3 with h4 | h5
      · exact hpv h4
      · exact absurd (List.mem_singleton.mp h5) (by decide)
  rw [hno]

/-! ### Output-file fold lemmas -/

theorem appendFile_cons_ne (q : Str × List Str) (rest : List (Str × List Str)) (k v : Str)
    (h : q.1 ≠ k) :
    appendFile (q :: rest) k v = q :: appendFile rest k v := by
  unfold appendFile
  have hq : (q.1 == k) = false := by simpa using h
  by_cases hany : rest.any (fun p => p.1 == k) = true
  · rw [if_pos (by simp [List.any_cons, hq, hany]), if_pos hany, List.map_cons]
    rw [if_neg (by rw [hq]; exact Bool.false_ne_true)]
  · rw [if_neg (by simp [List.any_cons, hq, hany]), if_neg hany]
    rfl

theorem foldl_appendFile_cons : ∀ (kvs : List (Str × Str)) (q : Str × List Str)
    (files : List (Str × List Str)), (∀ kv ∈ kvs, kv.1 ≠ q.1) →
    kvs.foldl (fun fl kv => appendFile fl kv.1 kv.2) (q :: files)
      = q :: kvs.foldl (fun fl kv => appendFile fl kv.1 kv.2) files := by
  intro kvs
  induction kvs with
  | nil => intro q files _; rfl
  | cons kv kvs ih =>
    intro q files h
    rw [List.foldl_cons, List.foldl_cons]
    rw [appendFile_cons_ne q files kv.1 kv.2 (Ne.symm (h kv (by simp)))]
    exact ih q _ (fun u hu => h u (List.mem_cons_of_mem _ hu))

theorem appendFile_head (p : Str × List Str) (rest : List (Str × List Str)) (v : Str)
    (h : ∀ q ∈ rest, q.1 ≠ p.1) :
    appendFile (p :: rest) p.1 v = (p.1, p.2 ++ [v]) :: rest := by
  unfold appendFile
  rw [if_pos (by simp [List.any_cons])]
  rw [List.map_cons, if_pos (by simp)]
  have hmap : rest.map (fun q => if (q.1 == p.1) = true then (q.1, q.2 ++ [v]) else q)
      = rest := by
    have h1 : rest.map (fun q => if (q.1 == p.1) = true then (q.1, q.2 ++ [v]) else q)
        = rest.map (fun q => q) :=
      List.map_congr_left (fun q hq => if_neg (by simpa using h q hq))
    rw [h1]
    simp
  rw [hmap]

theorem foldl_appendFile_fresh : ∀ (kvs : List (Str × Str)) (files : List (Str × List Str)),
    (∀ kv ∈ kvs, ∀ p ∈ files, p.1 ≠ kv.1) → (kvs.map Prod.fst).Nodup →
    kvs.foldl (fun fl kv => appendFile fl kv.1 kv.2) files
      = files ++ kvs.map (fun kv => (kv.1, [kv.2])) := by
  intro kvs
  induction kvs with
  | nil => intro files _ _; simp
  | cons kv kvs ih =>
    intro files h hnd
    have hnd2 : kv.1 ∉ kvs.map Prod.fst ∧ (kvs.map Prod.fst).Nodup := by
      rw [List.map_cons, List.nodup_cons] at hnd
      exact hnd
    rw [List.foldl_cons]
    have happ : appendFile files kv.1 kv.2 = files ++ [(kv.1, [kv.2])] := by
      unfold appendFile
      rw [if_neg]
      intro hc
      rw [List.any_eq_true] at hc
      obtain ⟨p, hp, hbeq⟩ := hc
      exact h kv (by simp) p hp (by simpa using hbeq)
    rw [happ]
    rw [ih (files ++ [(kv.1, [kv.2])]) ?hfresh hnd2.2]
    · simp
    case hfresh =>
      intro u hu p hp
      rcases List.mem_append.mp hp with h1 | h2
      · exact h u (List.mem_cons_of_mem _ hu) p h1
      · rcases List.mem_singleton.mp h2 with rfl
        intro hc
        exact hnd2.1 (by rw [hc]; exact List.mem_map_of_mem Prod.fst hu)

theorem foldl_appendFile_aligned : ∀ (kvs : List (Str × Str)) (pairs : List (Str × List Str)),
    pairs.map Prod.fst = kvs.map Prod.fst → (kvs.map Prod.fst).Nodup →
    kvs.foldl (fun fl kv => appendFile fl kv.1 kv.2) pairs
      = List.zipWith (fun p kv => (p.1, p.2 ++ [kv.2])) pairs kvs := by
  intro kvs
  induction kvs with
  | nil =>
    intro pairs hk _
    simp only [List.map_nil] at hk
    rw [List.map_eq_nil_iff] at hk
    subst hk
    rfl
  | cons kv kvs ih =>
    intro pairs hk hnd
    cases pairs with
    | nil => simp at hk
    | cons p pairs2 =>
      simp only [List.map_cons] at hk
      have hp1 : p.1 = kv.1 := (List.cons.inj hk).1
      have htl : pairs2.map Prod.fst = kvs.map Prod.fst := (List.cons.inj hk).2
      have hnd2 : kv.1 ∉ kvs.map Prod.fst ∧ (kvs.map Prod.fst).Nodup := by
        rw [List.map_cons, List.nodup_cons] at hnd
        exact hnd
      rw [List.foldl_cons]
      have hstep : appendFile (p :: pairs2) kv.1 kv.2 = (p.1, p.2 ++ [kv.2]) :: pairs2 := by
        rw [← hp1]
        exact appendFile_head p pairs2 kv.2 (fun q hq hc => hnd2.1 (by
          have hm : q.1 ∈ pairs2.map Prod.fst := List.mem_map_of_mem Prod.fst hq
          rw [htl] at hm
          rw [← hp1, ← hc]
          exact hm))
      rw [hstep]
      rw [foldl_appendFile_cons kvs (p.1, p.2 ++ [kv.2]) pairs2 (fun u hu hc => hnd2.1 (by
        have hm : u.1 ∈ kvs.map Prod.fst := List.mem_map_of_mem Prod.fst hu
        rw [hc, hp1] at hm
        exact hm))]
      rw [ih pairs2 htl hnd2.2]
      rfl

/-! ### Atom-line fold lemmas -/

theorem atomLine_join (ai ci : List Str) (foRow : Option (List Str)) (j : Nat)
    (hc : (ci.drop (j * 3)).take 3 ≠ [])
    (hf : ∀ fr, foRow = some fr → (fr.drop (j * 3)).take 3 ≠ []) :
    atomLine ai ci foRow j = strJoin (str " ")
      (ai.getD j [] :: ((ci.drop (j * 3)).take 3 ++ chunkF foRow j)) := by
  cases foRow with
  | none =>
    show ai.getD j [] ++ str " " ++ strJoin (str " ") ((ci.drop (j * 3)).take 3)
        = strJoin (str " ") (ai.getD j [] :: ((ci.drop (j * 3)).take 3 ++ []))
    rw [List.append_nil]
    rw [strJoin_cons _ _ _ hc]
  | some fr =>
    show ai.getD j [] ++ str " " ++ strJoin (str " ") ((ci.drop (j * 3)).take 3)
        ++ str " " ++ strJoin (str " ") ((fr.drop (j * 3)).take 3)
      = strJoin (str " ") (ai.getD j []
          :: ((ci.drop (j * 3)).take 3 ++ (fr.drop (j * 3)).take 3))
    rw [strJoin_cons _ _ _ (by
      intro hcontra
      exact hc (List.append_eq_nil.mp hcontra).1)]
    rw [strJoin_append _ _ _ hc (hf fr rfl)]
    simp [List.append_assoc]

theorem atomFold_spec :
    ∀ (rows : List (Str × List Str × List Str)) (acc : List Str × List Str × List Str),
    (∀ r ∈ rows, goodTok r.1 ∧ r.2.1.length = 3 ∧ (∀ t ∈ r.2.1, goodTok t)
      ∧ (r.2.2 = [] ∨ (r.2.2.length = 3 ∧ ∀ t ∈ r.2.2, goodTok t))) →
    (rows.map (fun r => strJoin (str " ") (r.1 :: (r.2.1 ++ r.2.2)))).foldlM
        (fun (acc : List Str × List Str × List Str) line =>
          match pySplit line with
          | [] => none
          | a :: rest =>
            some (acc.1 ++ [a], acc.2.1 ++ rest.take 3,
              acc.2.2 ++ (if 4 < (a :: rest).length then ((a :: rest).drop 4).take 3 else [])))
        acc
      = some (acc.1 ++ rows.map (fun r => r.1),
          acc.2.1 ++ (rows.map (fun r => r.2.1)).flatten,
          acc.2.2 ++ (rows.map (fun r => r.2.2)).flatten) := by
  intro rows
  induction rows with
  | nil => intro acc _; simp
  | cons r rows ih =>
    intro acc h
    obtain ⟨hg1, hlen, hg2, hfo⟩ := h r (by simp)
    have hsplit : pySplit (strJoin (str " ") (r.1 :: (r.2.1 ++ r.2.2)))
        = r.1 :: (r.2.1 ++ r.2.2) := by
      apply pySplit_join
      intro t ht
      rcases List.mem_cons.mp ht with rfl | ht2
      · exact hg1
      · rcases List.mem_append.mp ht2 with h3 | h4
        · exact hg2 t h3
        · rcases hfo with hnil | ⟨_, hg3⟩
          · rw [hnil] at h4
            exact absurd h4 (List.not_mem_nil t)
          · exact hg3 t h4
    have ht3 : (r.2.1 ++ r.2.2).take 3 = r.2.1 := by
      rw [← hlen]
      exact List.take_left r.2.1 r.2.2
    have hforce : (if 4 < (r.1 :: (r.2.1 ++ r.2.2)).length
        then ((r.1 :: (r.2.1 ++ r.2.2)).drop 4).take 3 else []) = r.2.2 := by
      rcases hfo with hnil | ⟨hlen3, _⟩
      · rw [if_neg (by
          simp only [List.length_cons, List.length_append, hlen, hnil, List.length_nil]
          omega)]
        exact hnil.symm
      · rw [if_pos (by
          simp only [List.length_cons, List.length_append, hlen, hlen3]
          omega)]
        have hd : (r.2.1 ++ r.2.2).drop 3 = r.2.2 := by
          rw [← hlen]
          exact List.drop_left r.2.1 r.2.2
        rw [show ((r.1 :: (r.2.1 ++ r.2.2)).drop 4) = (r.2.1 ++ r.2.2).drop 3 from rfl, hd]
        exact List.take_of_length_le (by omega)
    rw [List.map_cons, List.foldlM_cons]
    simp only [hsplit, ht3, hforce]
    have hrest := ih (acc.1 ++ [r.1], acc.2.1 ++ r.2.1, acc.2.2 ++ r.2.2)
      (fun u hu => h u (List.mem_cons_of_mem _ hu))
    refine Eq.trans ?hred (Eq.trans hrest ?hfin)
    case hred => rfl
    case hfin => simp [List.append_assoc]

/-! ### Properties value and pbc value facts -/

theorem propVal_facts (Fo : Option (List (List Str))) :
    propVal Fo ≠ [] ∧ ∀ c ∈ propVal Fo, c ≠ ' ' ∧ c ≠ '"' ∧ ¬ c.isWhitespace := by
  cases Fo with
  | none =>
    have hp : propVal none = str "species:S:1:pos:R:3" := rfl
    rw [hp]
    exact ⟨by decide, by decide⟩
  | some fs =>
    have hp : propVal (some fs) = str "species:S:1:pos:R:3" ++ str ":forces:R:3" := rfl
    rw [hp]
    exact ⟨by decide, by decide⟩

theorem pbc_value_default (popt : Str) (B : Option (List (List Str))) (i : Nat)
    (h : ¬ (popt = str "box" ∧ B.isSome = true)) :
    pbc_value popt B i = str "F F F" := by
  unfold pbc_value
  rw [if_neg h]

theorem pbc_value_box (popt : Str) (B : Option (List (List Str))) (i : Nat)
    (hpopt : popt = str "box") (hsome : B.isSome = true)
    (hi : i < (B.getD []).length) :
    pbc_value popt B i = strJoin (str " ") ((B.getD []).getD i []) := by
  unfold pbc_value
  rw [if_pos ⟨hpopt, hsome⟩, if_pos hi]

theorem strJoin_ne_FFF (r : List Str) (hg : ∀ t ∈ r, goodTok t)
    (hne : r ≠ [str "F", str "F", str "F"]) :
    strJoin (str " ") r ≠ str "F F F" := by
  intro hc
  apply hne
  have h1 := pySplit_join r hg
  rw [hc] at h1
  rw [← h1]
  rfl

theorem pbc_value_facts (popt : Str) (B : Option (List (List Str))) (i : Nat)
    (hB : B.isSome = true → i < (B.getD []).length)
    (hBrow : B.isSome = true → ∀ r ∈ B.getD [], r ≠ []
      ∧ (∀ t ∈ r, goodTok t ∧ '"' ∉ t ∧ '=' ∉ t)
      ∧ r ≠ [str "F", str "F", str "F"]) :
    pbc_value popt B i ≠ []
      ∧ ∀ c ∈ pbc_value popt B i, (c = ' ' ∨ ¬ c.isWhitespace) ∧ c ≠ '"' ∧ c ≠ '=' := by
  by_cases hcond : popt = str "box" ∧ B.isSome = true
  · rw [pbc_value_box popt B i hcond.1 hcond.2 (hB hcond.2)]
    have hrow : (B.getD []).getD i [] ∈ B.getD [] := by
      rw [List.getD_eq_getElem _ _ (hB hcond.2)]
      exact List.getElem_mem _
    obtain ⟨hne, htoks, _⟩ := hBrow hcond.2 _ hrow
    constructor
    · exact strJoin_ne_nil _ _ hne (fun t ht => (htoks t ht).1.1)
    · intro c hc
      rcases mem_strJoin _ _ c hc with hsep | ⟨t, ht, hct⟩
      · have hsp0 : c ∈ ([' '] : Str) := hsep
        have hcsp : c = ' ' := by simpa using hsp0
        subst hcsp
        exact ⟨Or.inl rfl, by decide, by decide⟩
      · obtain ⟨⟨_, hnws⟩, hq, he⟩ := htoks t ht
        exact ⟨Or.inr (hnws c hct), fun hcq => hq (hcq ▸ hct), fun hce => he (hce ▸ hct)⟩
  · rw [pbc_value_default popt B i hcond]
    exact ⟨by decide, by decide⟩

theorem flatten_tokens_chars (ps2 : List (Str × Str)) (c : Char)
    (hmem : c ∈ (ps2.map (fun p => ' ' :: (p.1 ++ '=' :: p.2))).flatten) :
    c = ' ' ∨ c = '=' ∨ (∃ p ∈ ps2, c ∈ p.1) ∨ (∃ p ∈ ps2, c ∈ p.2) := by
  rw [List.mem_flatten] at hmem
  obtain ⟨l, hl, hcl⟩ := hmem
  rw [List.mem_map] at hl
  obtain ⟨p, hp, rfl⟩ := hl
  rcases List.mem_cons.mp hcl with he | h2
  · exact Or.inl he
  · rcases List.mem_append.mp h2 with h3 | h4
    · exact Or.inr (Or.inr (Or.inl ⟨p, hp, h3⟩))
    · rcases List.mem_cons.mp h4 with he2 | h5
      · exact Or.inr (Or.inl he2)
      · exact Or.inr (Or.inr (Or.inr ⟨p, hp, h5⟩))

/-! ### Serializer success on well-formed input -/

theorem extxyzFrame_ok (A C E : List (List Str)) (Fo B : Option (List (List Str)))
    (L : List (Str × Option (List Str))) (popt : Str) (i : Nat)
    (h : RTHyp A C E Fo B L) (hi : i < A.length) :
    extxyzFrame A C E Fo B L popt i = Except.ok (rtBlock A C E Fo B L popt i) := by
  obtain ⟨e0, hE0⟩ : ∃ e0, E.getD i [] = [e0] := by
    have hmem : E.getD i [] ∈ E := by
      rw [List.getD_eq_getElem _ _ (show i < E.length by rw [h.hE]; omega)]
      exact List.getElem_mem _
    exact List.length_eq_one.mp (h.hErow _ hmem).1
  simp only [extxyzFrame, hE0, List.head?_cons]
  rw [if_neg (show ¬ E.length ≤ i by rw [h.hE]; omega)]
  rw [if_neg (show ¬ C.length ≤ i by rw [h.hC]; omega)]
  rw [if_neg (not_not_intro (h.hClen i hi))]
  cases hFo : Fo with
  | none =>
    show (extxyzAtomLines i (A.getD i []) (C.getD i []) none).map
        (fun atomLines => natStr (A.getD i []).length
          :: extxyzMeta L i none B popt e0 :: atomLines)
      = Except.ok (rtBlock A C E none B L popt i)
    rw [extxyzAtomLines_ok i (A.getD i []) (C.getD i []) none (h.hClen i hi)
      (fun fr hfr => Option.noConfusion hfr)]
    unfold rtBlock
    rw [hE0]
    rfl
  | some fs =>
    have hsome : Fo.isSome = true := by rw [hFo]; rfl
    have hlen : fs.length = A.length := by
      have h2 := h.hFo hsome
      rw [hFo] at h2
      exact h2
    have hflen : (fs.getD i []).length = (A.getD i []).length * 3 := by
      have h2 := h.hFlen hsome i hi
      rw [hFo] at h2
      exact h2
    show (if fs.length ≤ i then
        Except.error (PyErr.indexError (str "list index out of range"))
      else if (fs.getD i []).length ≠ (A.getD i []).length * 3 then
        Except.error (PyErr.valueError (frame_force_msg i ((A.getD i []).length * 3)
          (fs.getD i []).length))
      else
        (extxyzAtomLines i (A.getD i []) (C.getD i []) (some (fs.getD i []))).map
        (fun atomLines => natStr (A.getD i []).length
          :: extxyzMeta L i (some fs) B popt e0 :: atomLines))
      = Except.ok (rtBlock A C E (some fs) B L popt i)
    rw [if_neg (show ¬ fs.length ≤ i by omega)]
    rw [if_neg (not_not_intro hflen)]
    rw [extxyzAtomLines_ok i (A.getD i []) (C.getD i []) (some (fs.getD i []))
      (h.hClen i hi) (fun fr hfr => by rw [← Option.some.inj hfr]; exact hflen)]
    unfold rtBlock
    rw [hE0]
    rfl

theorem take_succ_getD {α : Type} (l : List α) (d : α) (m : Nat) (h : m < l.length) :
    l.take (m + 1) = l.take m ++ [l.getD m d] := by
  rw [List.take_succ, List.getElem?_eq_getElem h, List.getD_eq_getElem l d h]
  rfl

theorem flatten_nil_map {α β : Type} : ∀ (l : List α),
    ((l.map (fun _ => ([] : List β))).flatten) = [] := by
  intro l
  induction l with
  | nil => rfl
  | cons a l ih => simp only [List.map_cons, List.flatten_cons, List.nil_append]; exact ih

theorem labelPairs_fst (L : List (Str × Option (List Str))) (m : Nat) :
    (labelPairs L m).map Prod.fst = L.map Prod.fst := by
  rw [labelPairs, List.map_map]
  exact List.map_congr_left (fun p hp => rfl)

theorem processFrame_compute (st : SplitOut) (d pl : Str)
    (rows : List (Str × List Str × List Str)) (kvs : List (Str × Str)) (pv : Str)
    (hd : pyIntOk d = true)
    (hcont : pl.contains '=' = true)
    (hkv : parse_labels pl = kvs)
    (hpb : parse_pbc pl = some pv)
    (hrows : ∀ r ∈ rows, goodTok r.1 ∧ r.2.1.length = 3 ∧ (∀ t ∈ r.2.1, goodTok t)
      ∧ (r.2.2 = [] ∨ (r.2.2.length = 3 ∧ ∀ t ∈ r.2.2, goodTok t))) :
    processFrame st (d :: pl :: rows.map (fun r => strJoin (str " ") (r.1 :: (r.2.1 ++ r.2.2))))
      = some { label_files := kvs.foldl (fun fl kv => appendFile fl kv.1 kv.2) st.label_files,
               energy := st.energy ++ [dictGet kvs (str "energy") []],
               box := if pv ≠ [] ∧ pv ≠ str "F F F" then st.box ++ [pv] else st.box,
               species := st.species ++ [strJoin (str " ") (rows.map (fun r => r.1))],
               coord := st.coord ++ [strJoin (str " ") ((rows.map (fun r => r.2.1)).flatten)],
               force := if (rows.map (fun r => r.2.2)).flatten ≠ []
                 then st.force ++ [strJoin (str " ") ((rows.map (fun r => r.2.2)).flatten)]
                 else st.force } := by
  simp only [processFrame]
  rw [show ((d :: pl :: rows.map (fun r => strJoin (str " ") (r.1 :: (r.2.1 ++ r.2.2))))
      : List Str).getD 0 [] = d from rfl]
  rw [if_neg (show ¬ (pyIntOk d = false) from by rw [hd]; decide)]
  rw [if_neg (show ¬ ((d :: pl :: rows.map (fun r => strJoin (str " ")
        (r.1 :: (r.2.1 ++ r.2.2)))) : List Str).length < 2 from by
    simp only [List.length_cons]
    omega)]
  rw [show ((d :: pl :: rows.map (fun r => strJoin (str " ") (r.1 :: (r.2.1 ++ r.2.2))))
      : List Str).getD 1 [] = pl from rfl]
  rw [if_neg (show ¬ (pl.contains '=' = false) from by rw [hcont]; decide)]
  rw [hkv, hpb]
  rw [show ((d :: pl :: rows.map (fun r => strJoin (str " ") (r.1 :: (r.2.1 ++ r.2.2))))
      : List Str).drop 2 = rows.map (fun r => strJoin (str " ") (r.1 :: (r.2.1 ++ r.2.2)))
      from rfl]
  rw [atomFold_spec rows ([], [], []) hrows]
  simp only [List.nil_append]

theorem processFrame_step (A C E : List (List Str)) (Fo B : Option (List (List Str)))
    (L : List (Str × Option (List Str))) (popt : Str) (m : Nat)
    (h : RTHyp A C E Fo B L) (hm : m < A.length) :
    processFrame (rtState A C E Fo B L popt m) (rtBlock A C E Fo B L popt m)
      = some (rtState A C E Fo B L popt (m + 1)) := by
  have hAmem : A.getD m [] ∈ A := by
    rw [List.getD_eq_getElem _ _ hm]
    exact List.getElem_mem _
  have hn1 : 0 < (A.getD m []).length := List.length_pos.mpr (h.hArow _ hAmem).1
  have hE0mem : E.getD m [] ∈ E := by
    rw [List.getD_eq_getElem _ _ (show m < E.length by rw [h.hE]; omega)]
    exact List.getElem_mem _
  obtain ⟨e0, hE0⟩ : ∃ e0, E.getD m [] = [e0] :=
    List.length_eq_one.mp (h.hErow _ hE0mem).1
  have he0 : goodTok e0 ∧ '"' ∉ e0 := (h.hErow _ hE0mem).2 e0 (by rw [hE0]; simp)
  have hval : ∀ p ∈ L, valAt m p ≠ [] ∧ ∀ c ∈ valAt m p, ¬ c.isWhitespace ∧ c ≠ '"' := by
    intro p hp
    obtain ⟨hnn, hlen, hvv⟩ := h.hLval p hp
    have hmemv : (p.2.getD []).getD m [] ∈ p.2.getD [] := by
      rw [List.getD_eq_getElem _ _ (by omega)]
      exact List.getElem_mem _
    exact hvv _ hmemv
  have hlab : ∀ p ∈ L, labelTok m p = some (' ' :: (p.1 ++ '=' :: valAt m p)) := by
    intro p hp
    obtain ⟨hnn, hlen, _⟩ := h.hLval p hp
    obtain ⟨vs, hvs⟩ : ∃ vs, p.2 = some vs := by
      cases hpp : p.2 with
      | none => exact absurd hpp hnn
      | some vs => exact ⟨vs, rfl⟩
    have hlen2 : vs.length = A.length := by rw [hvs] at hlen; exact hlen
    obtain ⟨hvne, hvch⟩ := hval p hp
    refine labelTok_eq m p vs hvs (by omega) ?_ ?_
    · intro hc
      apply hvne
      show (p.2.getD []).getD m [] = []
      rw [hvs]
      exact hc
    · intro c hc hcc
      have hmem2 : c ∈ valAt m p := by
        show c ∈ (p.2.getD []).getD m []
        rw [hvs]
        exact hc
      exact (hvch c hmem2).1 (by rw [hcc]; decide)
  have hmeta := extxyzMeta_eq L m Fo B popt e0 hlab
  have hpv := pbc_value_facts popt B m (fun hs => by rw [h.hB hs]; omega) h.hBrow
  have hps2 : ∀ p ∈ labelPairs L m ++ [(str "energy", e0)],
      p.1 ≠ [] ∧ (∀ c ∈ p.1, isWordChar c = true) ∧ p.2 ≠ [] ∧ (∀ c ∈ p.2, c ≠ ' ') := by
    intro p hp
    rcases List.mem_append.mp hp with h1 | h2
    · rw [labelPairs, List.mem_map] at h1
      obtain ⟨q, hq, rfl⟩ := h1
      obtain ⟨hn1q, hn2q, _⟩ := h.hLname q hq
      obtain ⟨hvne, hvch⟩ := hval q hq
      exact ⟨hn1q, hn2q, hvne, fun c hc hcc => (hvch c hc).1 (by rw [hcc]; decide)⟩
    · rcases List.mem_singleton.mp h2 with rfl
      refine ⟨?_, ?_, he0.1.1, ?_⟩
      · show (str "energy" : Str) ≠ []
        decide
      · show ∀ c ∈ (str "energy" : Str), isWordChar c = true
        decide
      · intro c hc hcc
        exact he0.1.2 c hc (by rw [hcc]; decide)
  have hkeyne : ∀ p ∈ labelPairs L m, p.1 ≠ str "energy" := by
    intro p hp
    rw [labelPairs, List.mem_map] at hp
    obtain ⟨q, hq, rfl⟩ := hp
    exact (h.hLname q hq).2.2.2.2
  have hkeysnd : ((labelPairs L m ++ [(str "energy", e0)]).map Prod.fst).Nodup := by
    rw [List.map_append, labelPairs_fst, List.nodup_append]
    refine ⟨h.hLkeys, List.nodup_singleton _, ?_⟩
    intro a ha hc
    rcases List.mem_singleton.mp hc with rfl
    rw [List.mem_map] at ha
    obtain ⟨q, hq, hq2⟩ := ha
    exact (h.hLname q hq).2.2.2.2 hq2
  have hfk : findKV (extxyzMeta L m Fo B popt e0)
      = ((str "Properties", propVal Fo) :: labelPairs L m)
        ++ [(str "energy", e0),
            (str "pbc", ('"' :: (pbc_value popt B m ++ ['"'])).takeWhile
              (fun x => x ≠ ' '))] := by
    rw [hmeta]
    rw [metaLine_findKV (propVal Fo) (labelPairs L m ++ [(str "energy", e0)])
      (pbc_value popt B m)
      ⟨(propVal_facts Fo).1, fun c hc => ((propVal_facts Fo).2 c hc).1⟩
      hps2 (fun hc => (hpv.2 '=' hc).2.2 rfl)]
    simp
  have hpl : parse_labels (extxyzMeta L m Fo B popt e0)
      = labelPairs L m ++ [(str "energy", e0)] :=
    parse_labels_spec _ (propVal Fo) e0 _ (labelPairs L m)
      (fun p hp => by
        rw [labelPairs, List.mem_map] at hp
        obtain ⟨q, hq, rfl⟩ := hp
        obtain ⟨_, _, hn3, hn4, hn5⟩ := h.hLname q hq
        exact ⟨hn3, hn4, hn5⟩)
      (by rw [labelPairs_fst]; exact h.hLkeys)
      hfk
  have hq1 : '"' ∉ (str "Properties" ++ '=' :: (propVal Fo
      ++ (((labelPairs L m ++ [(str "energy", e0)]).map
          (fun p => ' ' :: (p.1 ++ '=' :: p.2))).flatten ++ [' ']))) := by
    intro hmem
    rcases List.mem_append.mp hmem with h1 | h2
    · exact absurd h1 (by decide)
    · rcases List.mem_cons.mp h2 with he | h3
      · exact absurd he (by decide)
      · rcases List.mem_append.mp h3 with h4 | h5
        · exact ((propVal_facts Fo).2 '"' h4).2.1 rfl
        · rcases List.mem_append.mp h5 with h6 | h7
          · rcases flatten_tokens_chars _ '"' h6 with he1 | he2 | ⟨p, hp, hk⟩ | ⟨p, hp, hv2⟩
            · exact absurd he1 (by decide)
            · exact absurd he2 (by decide)
            · exact absurd ((hps2 p hp).2.1 '"' hk) (by decide)
            · rcases List.mem_append.mp hp with hp1 | hp2
              · rw [labelPairs, List.mem_map] at hp1
                obtain ⟨q, hq, rfl⟩ := hp1
                exact ((hval q hq).2 '"' hv2).2 rfl
              · rcases List.mem_singleton.mp hp2 with rfl
                exact he0.2 hv2
          · exact absurd (List.mem_singleton.mp h7) (by decide)
  have hpbmeta : parse_pbc (extxyzMeta L m Fo B popt e0)
      = some (pbc_value popt B m) := by
    have hx : (str "pbc=" : Str) = str "pbc" ++ ['='] := rfl
    have hdecomp : extxyzMeta L m Fo B popt e0
        = (str "Properties" ++ '=' :: (propVal Fo
            ++ (((labelPairs L m ++ [(str "energy", e0)]).map
                (fun p => ' ' :: (p.1 ++ '=' :: p.2))).flatten ++ [' '])))
          ++ (str "pbc=" ++ '"' :: (pbc_value popt B m ++ ['"'])) := by
      rw [hmeta, hx]
      simp [List.append_assoc]
    rw [hdecomp]
    rw [parse_pbc_skip
      (str "Properties" ++ '=' :: (propVal Fo
        ++ (((labelPairs L m ++ [(str "energy", e0)]).map
            (fun p => ' ' :: (p.1 ++ '=' :: p.2))).flatten ++ [' '])))
      (str "pbc=" ++ '"' :: (pbc_value popt B m ++ ['"'])) hq1 rfl]
    exact parse_pbc_found (pbc_value popt B m)
      (fun hc => (hpv.2 '"' hc).2.1 rfl) hpv.1
  have hcont : (extxyzMeta L m Fo B popt e0).contains '=' = true := by
    show List.elem '=' (extxyzMeta L m Fo B popt e0) = true
    rw [List.elem_iff, hmeta]
    exact List.mem_append_right _ (List.mem_cons_self _ _)
  have hlines : (List.range (A.getD m []).length).map
        (atomLine (A.getD m []) (C.getD m []) (Fo.map (fun fs => fs.getD m [])))
      = ((List.range (A.getD m []).length).map (fun j =>
          ((A.getD m []).getD j [], chunk3 (C.getD m []) j,
            chunkF (Fo.map (fun fs => fs.getD m [])) j))).map
        (fun r => strJoin (str " ") (r.1 :: (r.2.1 ++ r.2.2))) := by
    rw [List.map_map]
    apply List.map_congr_left
    intro j hj
    have hjn : j < (A.getD m []).length := List.mem_range.mp hj
    have hc3 : ((C.getD m []).drop (j * 3)).take 3 ≠ [] := by
      have hl3 := chunk3_length (C.getD m []) (A.getD m []).length j (h.hClen m hm) hjn
      intro hcon
      rw [hcon] at hl3
      exact absurd hl3 (by decide)
    have hfne : ∀ fr, Fo.map (fun fs => fs.getD m []) = some fr →
        (fr.drop (j * 3)).take 3 ≠ [] := by
      intro fr hfr
      cases hFoC : Fo with
      | none => rw [hFoC] at hfr; exact Option.noConfusion hfr
      | some fs =>
        rw [hFoC] at hfr
        have hfr2 : fs.getD m [] = fr := Option.some.inj hfr
        have hsome : Fo.isSome = true := by rw [hFoC]; rfl
        have hflen2 : (fs.getD m []).length = (A.getD m []).length * 3 := by
          have h2 := h.hFlen hsome m hm
          rw [hFoC] at h2
          exact h2
        rw [← hfr2]
        have hl3 := chunk3_length (fs.getD m []) (A.getD m []).length j hflen2 hjn
        intro hcon
        rw [hcon] at hl3
        exact absurd hl3 (by decide)
    show atomLine (A.getD m []) (C.getD m []) (Fo.map (fun fs => fs.getD m [])) j
        = strJoin (str " ") ((A.getD m []).getD j []
          :: (chunk3 (C.getD m []) j ++ chunkF (Fo.map (fun fs => fs.getD m [])) j))
    exact atomLine_join (A.getD m []) (C.getD m [])
      (Fo.map (fun fs => fs.getD m [])) j hc3 hfne
  have hrows : ∀ r ∈ (List.range (A.getD m []).length).map (fun j =>
        ((A.getD m []).getD j [], chunk3 (C.getD m []) j,
          chunkF (Fo.map (fun fs => fs.getD m [])) j)),
      goodTok r.1 ∧ r.2.1.length = 3 ∧ (∀ t ∈ r.2.1, goodTok t)
        ∧ (r.2.2 = [] ∨ (r.2.2.length = 3 ∧ ∀ t ∈ r.2.2, goodTok t)) := by
    intro r hr
    rw [List.mem_map] at hr
    obtain ⟨j, hj, rfl⟩ := hr
    have hjn : j < (A.getD m []).length := List.mem_range.mp hj
    have hCmem : C.getD m [] ∈ C := by
      rw [List.getD_eq_getElem _ _ (show m < C.length by rw [h.hC]; omega)]
      exact List.getElem_mem _
    refine ⟨?_, ?_, ?_, ?_⟩
    · have hjmem : (A.getD m []).getD j [] ∈ A.getD m [] := by
        rw [List.getD_eq_getElem _ _ hjn]
        exact List.getElem_mem _
      exact (h.hArow _ hAmem).2 _ hjmem
    · exact chunk3_length _ _ j (h.hClen m hm) hjn
    · intro t ht
      exact h.hCrow _ hCmem t (chunk3_subset _ j t ht)
    · cases hFoC : Fo with
      | none => exact Or.inl rfl
      | some fs =>
        right
        have hflen2 : (fs.getD m []).length = (A.getD m []).length * 3 := by
          have h2 := h.hFlen (by rw [hFoC]; rfl) m hm
          rw [hFoC] at h2
          exact h2
        have hFmem : fs.getD m [] ∈ fs := by
          rw [List.getD_eq_getElem _ _ (show m < fs.length by
            have h2 := h.hFo (by rw [hFoC]; rfl)
            rw [hFoC] at h2
            have h3 : fs.length = A.length := h2
            omega)]
          exact List.getElem_mem _
        constructor
        · exact chunk3_length _ _ j hflen2 hjn
        · intro t ht
          have hrowg := h.hFrow (by rw [hFoC]; rfl)
          rw [hFoC] at hrowg
          exact hrowg _ hFmem t (chunk3_subset _ j t ht)
  have hblkeq : rtBlock A C E Fo B L popt m
      = natStr (A.getD m []).length
        :: extxyzMeta L m Fo B popt e0
        :: ((List.range (A.getD m []).length).map (fun j =>
            ((A.getD m []).getD j [], chunk3 (C.getD m []) j,
              chunkF (Fo.map (fun fs => fs.getD m [])) j))).map
          (fun r => strJoin (str " ") (r.1 :: (r.2.1 ++ r.2.2))) := by
    rw [← hlines]
    unfold rtBlock
    rw [hE0]
    rfl
  rw [hblkeq]
  rw [processFrame_compute (rtState A C E Fo B L popt m)
    (natStr (A.getD m []).length) (extxyzMeta L m Fo B popt e0)
    _ (labelPairs L m ++ [(str "energy", e0)]) (pbc_value popt B m)
    (pyIntOk_natStr _) hcont hpl hpbmeta hrows]
  have hsp : ((List.range (A.getD m []).length).map (fun j =>
      ((A.getD m []).getD j [], chunk3 (C.getD m []) j,
        chunkF (Fo.map (fun fs => fs.getD m [])) j))).map (fun r => r.1)
      = A.getD m [] := by
    rw [List.map_map]
    have hcm : ((fun (r : Str × List Str × List Str) => r.1) ∘ (fun j =>
        ((A.getD m []).getD j [], chunk3 (C.getD m []) j,
          chunkF (Fo.map (fun fs => fs.getD m [])) j)))
        = fun j => (A.getD m []).getD j [] := by
      funext j
      rfl
    rw [hcm]
    exact map_getD_range [] (A.getD m [])
  have hpos : (((List.range (A.getD m []).length).map (fun j =>
      ((A.getD m []).getD j [], chunk3 (C.getD m []) j,
        chunkF (Fo.map (fun fs => fs.getD m [])) j))).map (fun r => r.2.1)).flatten
      = C.getD m [] := by
    rw [List.map_map]
    have hcm : ((fun (r : Str × List Str × List Str) => r.2.1) ∘ (fun j =>
        ((A.getD m []).getD j [], chunk3 (C.getD m []) j,
          chunkF (Fo.map (fun fs => fs.getD m [])) j)))
        = fun j => ((C.getD m []).drop (j * 3)).take 3 := by
      funext j
      rfl
    rw [hcm]
    exact chunks_flatten _ _ (h.hClen m hm)
  have hLtake : ∀ p ∈ L, (p.2.getD []).take (m + 1)
      = (p.2.getD []).take m ++ [valAt m p] := by
    intro p hp
    exact take_succ_getD _ [] m (by rw [(h.hLval p hp).2.1]; omega)
  have hEtake : (E.take (m + 1)).map (fun r => r.getD 0 [])
      = (E.take m).map (fun r => r.getD 0 []) ++ [e0] := by
    rw [take_succ_getD E [] m (show m < E.length by rw [h.hE]; omega),
      List.map_append, hE0]
    rfl
  refine congrArg some ?_
  simp only [rtState]
  rw [SplitOut.mk.injEq]
  refine ⟨?_, ?_, ?_, ?_, ?_, ?_⟩
  · -- label files
    rw [if_neg (show ¬ (m + 1 = 0) by omega)]
    by_cases hm0 : m = 0
    · subst hm0
      rw [if_pos rfl]
      rw [foldl_appendFile_fresh (labelPairs L 0 ++ [(str "energy", e0)]) []
        (fun kv hkv p hp => absurd hp (List.not_mem_nil p)) hkeysnd]
      rw [List.nil_append, List.map_append]
      congr 1
      · rw [labelPairs, List.map_map]
        apply List.map_congr_left
        intro p hp
        show (p.1, [valAt 0 p]) = (p.1, (p.2.getD []).take 1)
        rw [hLtake p hp]
        rfl
      · rw [hEtake]
        rfl
    · rw [if_neg hm0]
      rw [foldl_appendFile_aligned (labelPairs L m ++ [(str "energy", e0)])
        (L.map (fun p => (p.1, (p.2.getD []).take m))
          ++ [(str "energy", (E.take m).map (fun r => r.getD 0 []))])
        (by
          rw [List.map_append, List.map_append, labelPairs_fst, List.map_map]
          congr 1)
        hkeysnd]
      rw [List.zipWith_append _ _ _ _ _ (by
        rw [List.length_map, labelPairs, List.length_map])]
      congr 1
      · rw [labelPairs, List.zipWith_map_left, List.zipWith_map_right,
          List.zipWith_same]
        apply List.map_congr_left
        intro p hp
        show (p.1, (p.2.getD []).take m ++ [valAt m p]) = (p.1, (p.2.getD []).take (m + 1))
        rw [hLtake p hp]
      · rw [hEtake]
        rfl
  · -- energy
    rw [dictGet_energy (labelPairs L m) e0 hkeyne]
    exact hEtake.symm
  · -- box
    by_cases hbox : popt = str "box" ∧ B.isSome = true
    · have hpvv : pbc_value popt B m = strJoin (str " ") ((B.getD []).getD m []) :=
        pbc_value_box popt B m hbox.1 hbox.2 (by rw [h.hB hbox.2]; omega)
      have hBmem : (B.getD []).getD m [] ∈ B.getD [] := by
        rw [List.getD_eq_getElem _ _ (by rw [h.hB hbox.2]; omega)]
        exact List.getElem_mem _
      obtain ⟨hBne, hBtoks, hBFFF⟩ := h.hBrow hbox.2 _ hBmem
      have hFFF : pbc_value popt B m ≠ str "F F F" := by
        rw [hpvv]
        exact strJoin_ne_FFF _ (fun t ht => (hBtoks t ht).1) hBFFF
      rw [if_pos ⟨hpv.1, hFFF⟩, if_pos hbox, if_pos hbox]
      rw [hpvv, take_succ_getD (B.getD []) [] m (by rw [h.hB hbox.2]; omega),
        List.map_append]
      rfl
    · rw [if_neg (show ¬ (pbc_value popt B m ≠ [] ∧ pbc_value popt B m ≠ str "F F F")
        from fun hc => hc.2 (pbc_value_default popt B m hbox))]
      rw [if_neg hbox, if_neg hbox]
  · -- species
    rw [hsp, take_succ_getD A [] m hm, List.map_append]
    rfl
  · -- coord
    rw [hpos, take_succ_getD C [] m (show m < C.length by rw [h.hC]; omega),
      List.map_append]
    rfl
  · -- force
    cases hFoC : Fo with
    | none =>
      have hflat : (((List.range (A.getD m []).length).map (fun j =>
          ((A.getD m []).getD j [], chunk3 (C.getD m []) j,
            chunkF ((none : Option (List (List Str))).map (fun fs => fs.getD m []))
              j))).map (fun r => r.2.2)).flatten = [] := by
        rw [List.map_map]
        have hcm : ((fun (r : Str × List Str × List Str) => r.2.2) ∘ (fun j =>
            ((A.getD m []).getD j [], chunk3 (C.getD m []) j,
              chunkF ((none : Option (List (List Str))).map (fun fs => fs.getD m []))
                j))) = fun j => ([] : List Str) := by
          funext j
          rfl
        rw [hcm]
        exact flatten_nil_map _
      rw [hflat]
      rw [if_neg (not_not_intro rfl)]
    | some fs =>
      have hflen2 : (fs.getD m []).length = (A.getD m []).length * 3 := by
        have h2 := h.hFlen (by rw [hFoC]; rfl) m hm
        rw [hFoC] at h2
        exact h2
      have hfsl : fs.length = A.length := by
        have h2 := h.hFo (by rw [hFoC]; rfl)
        rw [hFoC] at h2
        exact h2
      have hflat : (((List.range (A.getD m []).length).map (fun j =>
          ((A.getD m []).getD j [], chunk3 (C.getD m []) j,
            chunkF ((some fs : Option (List (List Str))).map (fun fs => fs.getD m []))
              j))).map (fun r => r.2.2)).flatten = fs.getD m [] := by
        rw [List.map_map]
        have hcm : ((fun (r : Str × List Str × List Str) => r.2.2) ∘ (fun j =>
            ((A.getD m []).getD j [], chunk3 (C.getD m []) j,
              chunkF ((some fs : Option (List (List Str))).map (fun fs => fs.getD m []))
                j))) = fun j => ((fs.getD m []).drop (j * 3)).take 3 := by
          funext j
          rfl
        rw [hcm]
        exact chunks_flatten _ _ hflen2
      rw [hflat]
      have hfne2 : fs.getD m [] ≠ [] := by
        intro hc
        rw [hc] at hflen2
        simp only [List.length_nil] at hflen2
        omega
      rw [if_pos hfne2]
      show (fs.take m).map (strJoin (str " ")) ++ [strJoin (str " ") (fs.getD m [])]
          = (fs.take (m + 1)).map (strJoin (str " "))
      rw [take_succ_getD fs [] m (by omega), List.map_append]
      rfl

theorem rtBlock_facts (A C E : List (List Str)) (Fo B : Option (List (List Str)))
    (L : List (Str × Option (List Str))) (popt : Str) (m : Nat)
    (h : RTHyp A C E Fo B L) (hm : m < A.length) :
    WFBlock (rtBlock A C E Fo B L popt m)
      ∧ ∀ l ∈ rtBlock A C E Fo B L popt m, l ≠ [] ∧ '\n' ∉ l := by
  have hAmem : A.getD m [] ∈ A := by
    rw [List.getD_eq_getElem _ _ hm]
    exact List.getElem_mem _
  have hE0mem : E.getD m [] ∈ E := by
    rw [List.getD_eq_getElem _ _ (show m < E.length by rw [h.hE]; omega)]
    exact List.getElem_mem _
  obtain ⟨e0, hE0⟩ : ∃ e0, E.getD m [] = [e0] :=
    List.length_eq_one.mp (h.hErow _ hE0mem).1
  have he0 : goodTok e0 ∧ '"' ∉ e0 := (h.hErow _ hE0mem).2 e0 (by rw [hE0]; simp)
  have hval : ∀ p ∈ L, valAt m p ≠ [] ∧ ∀ c ∈ valAt m p, ¬ c.isWhitespace ∧ c ≠ '"' := by
    intro p hp
    obtain ⟨hnn, hlen, hvv⟩ := h.hLval p hp
    have hmemv : (p.2.getD []).getD m [] ∈ p.2.getD [] := by
      rw [List.getD_eq_getElem _ _ (by omega)]
      exact List.getElem_mem _
    exact hvv _ hmemv
  have hlab : ∀ p ∈ L, labelTok m p = some (' ' :: (p.1 ++ '=' :: valAt m p)) := by
    intro p hp
    obtain ⟨hnn, hlen, _⟩ := h.hLval p hp
    obtain ⟨vs, hvs⟩ : ∃ vs, p.2 = some vs := by
      cases hpp : p.2 with
      | none => exact absurd hpp hnn
      | some vs => exact ⟨vs, rfl⟩
    have hlen2 : vs.length = A.length := by rw [hvs] at hlen; exact hlen
    obtain ⟨hvne, hvch⟩ := hval p hp
    refine labelTok_eq m p vs hvs (by omega) ?_ ?_
    · intro hc
      apply hvne
      show (p.2.getD []).getD m [] = []
      rw [hvs]
      exact hc
    · intro c hc hcc
      have hmem2 : c ∈ valAt m p := by
        show c ∈ (p.2.getD []).getD m []
        rw [hvs]
        exact hc
      exact (hvch c hmem2).1 (by rw [hcc]; decide)
  have hmeta := extxyzMeta_eq L m Fo B popt e0 hlab
  have hpv := pbc_value_facts popt B m (fun hs => by rw [h.hB hs]; omega) h.hBrow
  have hps2 : ∀ p ∈ labelPairs L m ++ [(str "energy", e0)],
      p.1 ≠ [] ∧ (∀ c ∈ p.1, isWordChar c = true) ∧ p.2 ≠ [] ∧ (∀ c ∈ p.2, c ≠ ' ') := by
    intro p hp
    rcases List.mem_append.mp hp with h1 | h2
    · rw [labelPairs, List.mem_map] at h1
      obtain ⟨q, hq, rfl⟩ := h1
      obtain ⟨hn1q, hn2q, _⟩ := h.hLname q hq
      obtain ⟨hvne, hvch⟩ := hval q hq
      exact ⟨hn1q, hn2q, hvne, fun c hc hcc => (hvch c hc).1 (by rw [hcc]; decide)⟩
    · rcases List.mem_singleton.mp h2 with rfl
      refine ⟨?_, ?_, he0.1.1, ?_⟩
      · show (str "energy" : Str) ≠ []
        decide
      · show ∀ c ∈ (str "energy" : Str), isWordChar c = true
        decide
      · intro c hc hcc
        exact he0.1.2 c hc (by rw [hcc]; decide)
  have hvalq : ∀ p ∈ labelPairs L m ++ [(str "energy", e0)], ∀ c ∈ p.2, ¬ c.isWhitespace := by
    intro p hp c hc
    rcases List.mem_append.mp hp with h1 | h2
    · rw [labelPairs, List.mem_map] at h1
      obtain ⟨q, hq, rfl⟩ := h1
      exact ((hval q hq).2 c hc).1
    · rcases List.mem_singleton.mp h2 with rfl
      exact he0.1.2 c hc
  have hmnl : '\n' ∉ extxyzMeta L m Fo B popt e0 := by
    intro hmem
    rw [hmeta] at hmem
    rcases List.mem_append.mp hmem with h1 | h2
    · exact absurd h1 (by decide)
    · rcases List.mem_cons.mp h2 with he | h3
      · exact absurd he (by decide)
      · rcases List.mem_append.mp h3 with h4 | h5
        · exact ((propVal_facts Fo).2 '\n' h4).2.2 (by decide)
        · rcases List.mem_append.mp h5 with h6 | h7
          · rcases flatten_tokens_chars _ '\n' h6 with he1 | he2 | ⟨p, hp, hk⟩ | ⟨p, hp, hv2⟩
            · exact absurd he1 (by decide)
            · exact absurd he2 (by decide)
            · exact absurd ((hps2 p hp).2.1 '\n' hk) (by decide)
            · exact hvalq p hp '\n' hv2 (by decide)
          · rcases List.mem_cons.mp h7 with he3 | h8
            · exact absurd he3 (by decide)
            · rcases List.mem_append.mp h8 with h9 | h10
              · exact absurd h9 (by decide)
              · rcases List.mem_cons.mp h10 with he4 | h11
                · exact absurd he4 (by decide)
                · rcases List.mem_cons.mp h11 with he5 | h12
                  · exact absurd he5 (by decide)
                  · rcases List.mem_append.mp h12 with h13 | h14
                    · rcases (hpv.2 '\n' h13).1 with he6 | he7
                      · exact absurd he6 (by decide)
                      · exact he7 (by decide)
                    · exact absurd (List.mem_singleton.mp h14) (by decide)
  have hmne : extxyzMeta L m Fo B popt e0 ≠ [] := by
    rw [hmeta]
    intro hc
    rcases List.append_eq_nil.mp hc with ⟨-, h2⟩
    exact List.noConfusion h2
  have hmstrip : pyStrip (extxyzMeta L m Fo B popt e0) = extxyzMeta L m Fo B popt e0 := by
    have hhead : (extxyzMeta L m Fo B popt e0).head? = some 'P' := by
      rw [hmeta]
      rfl
    have hlast : (extxyzMeta L m Fo B popt e0).getLast? = some '"' := by
      rw [hmeta]
      rw [show (str "Properties" ++ '=' :: (propVal Fo
          ++ (((labelPairs L m ++ [(str "energy", e0)]).map
              (fun p => ' ' :: (p.1 ++ '=' :: p.2))).flatten
            ++ ' ' :: (str "pbc" ++ '=' :: ('"' :: (pbc_value popt B m ++ ['"']))))))
          = (str "Properties" ++ '=' :: (propVal Fo
            ++ (((labelPairs L m ++ [(str "energy", e0)]).map
                (fun p => ' ' :: (p.1 ++ '=' :: p.2))).flatten
              ++ ' ' :: (str "pbc" ++ '=' :: ('"' :: pbc_value popt B m))))) ++ ['"']
          from by simp [List.append_assoc]]
      exact List.getLast?_concat _
    exact pyStrip_id _ 'P' '"' hhead (by decide) hlast (by decide)
  have hmdig : pyIsDigitStr (extxyzMeta L m Fo B popt e0) = false := by
    apply pyIsDigitStr_false_of_mem _ '='
    · rw [hmeta]
      exact List.mem_append_right _ (List.mem_cons_self _ _)
    · decide
  have hatoms : ∀ j, j < (A.getD m []).length →
      atomLine (A.getD m []) (C.getD m []) (Fo.map (fun fs => fs.getD m [])) j ≠ []
        ∧ '\n' ∉ atomLine (A.getD m []) (C.getD m []) (Fo.map (fun fs => fs.getD m [])) j
        ∧ pyStrip (atomLine (A.getD m []) (C.getD m []) (Fo.map (fun fs => fs.getD m [])) j)
            = atomLine (A.getD m []) (C.getD m []) (Fo.map (fun fs => fs.getD m [])) j
        ∧ pyIsDigitStr (atomLine (A.getD m []) (C.getD m [])
            (Fo.map (fun fs => fs.getD m [])) j) = false := by
    intro j hjn
    have hCmem : C.getD m [] ∈ C := by
      rw [List.getD_eq_getElem _ _ (show m < C.length by rw [h.hC]; omega)]
      exact List.getElem_mem _
    have hc3 : ((C.getD m []).drop (j * 3)).take 3 ≠ [] := by
      have hl3 := chunk3_length (C.getD m []) (A.getD m []).length j (h.hClen m hm) hjn
      intro hcon
      rw [hcon] at hl3
      exact absurd hl3 (by decide)
    have hfne : ∀ fr, Fo.map (fun fs => fs.getD m []) = some fr →
        (fr.drop (j * 3)).take 3 ≠ [] := by
      intro fr hfr
      cases hFoC : Fo with
      | none => rw [hFoC] at hfr; exact Option.noConfusion hfr
      | some fs =>
        rw [hFoC] at hfr
        have hfr2 : fs.getD m [] = fr := Option.some.inj hfr
        have hflen2 : (fs.getD m []).length = (A.getD m []).length * 3 := by
          have h2 := h.hFlen (by rw [hFoC]; rfl) m hm
          rw [hFoC] at h2
          exact h2
        rw [← hfr2]
        have hl3 := chunk3_length (fs.getD m []) (A.getD m []).length j hflen2 hjn
        intro hcon
        rw [hcon] at hl3
        exact absurd hl3 (by decide)
    have hjoin := atomLine_join (A.getD m []) (C.getD m [])
      (Fo.map (fun fs => fs.getD m [])) j hc3 hfne
    have htoksg : ∀ t ∈ (A.getD m []).getD j []
        :: (((C.getD m []).drop (j * 3)).take 3
          ++ chunkF (Fo.map (fun fs => fs.getD m [])) j), goodTok t := by
      intro t ht
      rcases List.mem_cons.mp ht with rfl | ht2
      · have hjmem : (A.getD m []).getD j [] ∈ A.getD m [] := by
          rw [List.getD_eq_getElem _ _ hjn]
          exact List.getElem_mem _
        exact (h.hArow _ hAmem).2 _ hjmem
      · rcases List.mem_append.mp ht2 with h3 | h4
        · exact h.hCrow _ hCmem t (chunk3_subset _ j t h3)
        · cases hFoC : Fo with
          | none =>
            rw [hFoC] at h4
            exact absurd h4 (List.not_mem_nil t)
          | some fs =>
            rw [hFoC] at h4
            have hFmem : fs.getD m [] ∈ fs := by
              rw [List.getD_eq_getElem _ _ (show m < fs.length by
                have h2 := h.hFo (by rw [hFoC]; rfl)
                rw [hFoC] at h2
                have h3 : fs.length = A.length := h2
                omega)]
              exact List.getElem_mem _
            have hrowg := h.hFrow (by rw [hFoC]; rfl)
            rw [hFoC] at hrowg
            exact hrowg _ hFmem t (chunk3_subset _ j t h4)
    refine ⟨?_, ?_, ?_, ?_⟩
    · rw [hjoin]
      exact strJoin_ne_nil _ _ (by simp) (fun t ht => (htoksg t ht).1)
    · rw [hjoin]
      intro hmem
      rcases mem_strJoin _ _ '\n' hmem with hsep | ⟨t, ht, hct⟩
      · exact absurd (show ('\n' : Char) ∈ ([' '] : Str) from hsep) (by decide)
      · exact (htoksg t ht).2 '\n' hct (by decide)
    · rw [hjoin]
      obtain ⟨ha0, has⟩ := htoksg _ (List.mem_cons_self _ _)
      obtain ⟨c0, t0, hx⟩ := List.exists_cons_of_ne_nil ha0
      have hh : (strJoin (str " ") ((A.getD m []).getD j []
          :: (((C.getD m []).drop (j * 3)).take 3
            ++ chunkF (Fo.map (fun fs => fs.getD m [])) j))).head? = some c0 := by
        rw [strJoin_head? _ _ _ ha0, hx]
        rfl
      obtain ⟨cl, hcl, hclw⟩ := strJoin_getLast_not_ws (str " ")
        ((A.getD m []).getD j [] :: (((C.getD m []).drop (j * 3)).take 3
          ++ chunkF (Fo.map (fun fs => fs.getD m [])) j)) (by simp) htoksg
      exact pyStrip_id _ c0 cl hh (has c0 (by rw [hx]; simp)) hcl hclw
    · rw [hjoin]
      rw [strJoin_cons _ _ _ (by
        intro hcontra
        exact hc3 (List.append_eq_nil.mp hcontra).1)]
      apply pyIsDigitStr_false_of_mem _ ' '
      · exact List.mem_append_left _ (List.mem_append_right _ (by decide))
      · decide
  have hblk : rtBlock A C E Fo B L popt m
      = natStr (A.getD m []).length :: extxyzMeta L m Fo B popt e0
        :: (List.range (A.getD m []).length).map
            (atomLine (A.getD m []) (C.getD m []) (Fo.map (fun fs => fs.getD m []))) := by
    unfold rtBlock
    rw [hE0]
    rfl
  rw [hblk]
  constructor
  · refine ⟨natStr (A.getD m []).length, _, rfl, ?_, pyIsDigitStr_natStr _, ?_⟩
    · exact pyStrip_all _ (fun c hc => digit_not_ws c (natStr_digits _ c hc))
    · intro l hl
      rcases List.mem_cons.mp hl with rfl | hl2
      · exact ⟨hmstrip, hmdig⟩
      · rw [List.mem_map] at hl2
        obtain ⟨j, hj, rfl⟩ := hl2
        have hjn : j < (A.getD m []).length := List.mem_range.mp hj
        exact ⟨(hatoms j hjn).2.2.1, (hatoms j hjn).2.2.2⟩
  · intro l hl
    rcases List.mem_cons.mp hl with rfl | hl2
    · refine ⟨natStr_ne_nil _, ?_⟩
      intro hmem
      exact absurd (natStr_digits _ '\n' hmem) (by decide)
    · rcases List.mem_cons.mp hl2 with rfl | hl3
      · exact ⟨hmne, hmnl⟩
      · rw [List.mem_map] at hl3
        obtain ⟨j, hj, rfl⟩ := hl3
        have hjn : j < (A.getD m []).length := List.mem_range.mp hj
        exact ⟨(hatoms j hjn).1, (hatoms j hjn).2.1⟩

theorem foldlM_except_append {ε : Type} (g : Nat → List Str) :
    ∀ (idxs : List Nat) (acc : List Str) (f : Nat → Except ε (List Str)),
    (∀ i ∈ idxs, f i = Except.ok (g i)) →
    idxs.foldlM (fun acc i => (f i).map (fun ls => acc ++ ls)) acc
      = Except.ok (acc ++ (idxs.map g).flatten) := by
  intro idxs
  induction idxs with
  | nil =>
    intro acc f _
    show Except.ok acc = Except.ok (acc ++ ([] : List (List Str)).flatten)
    rw [List.flatten_nil, List.append_nil]
  | cons i idxs ih =>
    intro acc f hok
    rw [List.foldlM_cons, hok i (by simp)]
    refine Eq.trans ?hred (Eq.trans
      (ih (acc ++ g i) f (fun u hu => hok u (List.mem_cons_of_mem _ hu))) ?hfin)
    case hred => rfl
    case hfin => simp [List.append_assoc]

theorem extxyzAllFrames_ok (A C E : List (List Str)) (Fo B : Option (List (List Str)))
    (L : List (Str × Option (List Str))) (popt : Str) (h : RTHyp A C E Fo B L) :
    extxyzAllFrames A C E Fo B L popt
      = Except.ok (((List.range A.length).map (rtBlock A C E Fo B L popt)).flatten) := by
  unfold extxyzAllFrames
  rw [foldlM_except_append (rtBlock A C E Fo B L popt) (List.range A.length) []
    (extxyzFrame A C E Fo B L popt)
    (fun i hi => extxyzFrame_ok A C E Fo B L popt i h (List.mem_range.mp hi))]
  rw [List.nil_append]

theorem generate_ok (A C E : List (List Str)) (Fo B : Option (List (List Str)))
    (L : List (Str × Option (List Str))) (popt : Str) (h : RTHyp A C E Fo B L) :
    generate_extxyz_content A C E Fo B L popt
      = Except.ok (strJoin (str "\n")
          (((List.range A.length).map (rtBlock A C E Fo B L popt)).flatten)) := by
  unfold generate_extxyz_content
  rw [extxyzAllFrames_ok A C E Fo B L popt h]
  rfl

theorem splitFold_blocks (A C E : List (List Str)) (Fo B : Option (List (List Str)))
    (L : List (Str × Option (List Str))) (popt : Str) (h : RTHyp A C E Fo B L) :
    ∀ m, m ≤ A.length →
    ((List.range m).map (rtBlock A C E Fo B L popt)).foldlM processFrame
        (rtState A C E Fo B L popt 0)
      = some (rtState A C E Fo B L popt m) := by
  intro m
  induction m with
  | zero => intro _; rfl
  | succ m ih =>
    intro hm1
    rw [List.range_succ, List.map_append, List.foldlM_append]
    rw [ih (by omega)]
    show ([rtBlock A C E Fo B L popt m].foldlM processFrame (rtState A C E Fo B L popt m))
        = some (rtState A C E Fo B L popt (m + 1))
    rw [List.foldlM_cons]
    rw [processFrame_step A C E Fo B L popt m h (by omega)]
    rfl

theorem lookup_map_self (L : List (Str × Option (List Str)))
    (g : Str × Option (List Str) → List Str)
    (hnd : (L.map Prod.fst).Nodup) :
    ∀ p ∈ L, (L.map (fun q => (q.1, g q))).find? (fun q => q.1 == p.1)
      = some (p.1, g p) := by
  induction L with
  | nil => intro p hp; exact absurd hp (List.not_mem_nil p)
  | cons q L ih =>
    intro p hp
    have hnd2 : q.1 ∉ L.map Prod.fst ∧ (L.map Prod.fst).Nodup := by
      rw [List.map_cons, List.nodup_cons] at hnd
      exact hnd
    rw [List.map_cons]
    rcases List.mem_cons.mp hp with rfl | hp2
    · have hpos : List.find? (fun r => r.1 == p.1)
          ((p.1, g p) :: L.map (fun r => (r.1, g r))) = some (p.1, g p) :=
        List.find?_cons_of_pos _ (by simp)
      exact hpos
    · have hne : ¬ ((q.1, g q).1 == p.1) = true := by
        simp only [beq_iff_eq]
        intro hc
        exact hnd2.1 (by rw [hc]; exact List.mem_map_of_mem Prod.fst hp2)
      have hneg : List.find? (fun r => r.1 == p.1)
          ((q.1, g q) :: L.map (fun r => (r.1, g r)))
          = List.find? (fun r => r.1 == p.1) (L.map (fun r => (r.1, g r))) :=
        List.find?_cons_of_neg _ hne
      rw [hneg]
      exact ih hnd2.2 p hp2

/-- C1: on every frame collection satisfying the validator invariants together
with the token-level side conditions of the text format (amended to exclude
whitespace and quote characters from tokens and label values, single-token
energies, and box rows distinct from the closed default), splitting the
serialized extended text reconstructs every columnar stream: species,
coordinates, energies, forces and box columns come back token-for-token, and
every declared label file holds exactly the original label values. -/
theorem C1_theorem (A C E : List (List Str)) (Fo B : Option (List (List Str)))
    (L : List (Str × Option (List Str))) (popt : Str) (h : RTHyp A C E Fo B L) :
    ∃ s, generate_extxyz_content A C E Fo B L popt = Except.ok s ∧
    ∃ out, split_extxyz (fileLines s) = some out ∧
      out.species.map pySplit = A ∧
      out.coord.map pySplit = C ∧
      out.energy.map pySplit = E ∧
      out.force.map pySplit = (match Fo with | some fs => fs | none => []) ∧
      out.box.map pySplit
        = (if popt = str "box" ∧ B.isSome = true then B.getD [] else []) ∧
      ∀ p ∈ L, lookupFile out.label_files p.1 = some (p.2.getD []) := by
  refine ⟨strJoin (str "\n")
      (((List.range A.length).map (rtBlock A C E Fo B L popt)).flatten),
    generate_ok A C E Fo B L popt h, ?_⟩
  have hWF : ∀ b ∈ (List.range A.length).map (rtBlock A C E Fo B L popt), WFBlock b := by
    intro b hb
    rw [List.mem_map] at hb
    obtain ⟨i, hi, rfl⟩ := hb
    exact (rtBlock_facts A C E Fo B L popt i h (List.mem_range.mp hi)).1
  have hlineF : ∀ l ∈ ((List.range A.length).map (rtBlock A C E Fo B L popt)).flatten,
      l ≠ [] ∧ '\n' ∉ l := by
    intro l hl
    rw [List.mem_flatten] at hl
    obtain ⟨b, hb, hlb⟩ := hl
    rw [List.mem_map] at hb
    obtain ⟨i, hi, rfl⟩ := hb
    exact (rtBlock_facts A C E Fo B L popt i h (List.mem_range.mp hi)).2 l hlb
  have hflne : ((List.range A.length).map (rtBlock A C E Fo B L popt)).flatten ≠ [] := by
    intro hc
    rw [List.flatten_eq_nil_iff] at hc
    have h0 : rtBlock A C E Fo B L popt 0 = [] := by
      apply hc
      exact List.mem_map_of_mem _ (List.mem_range.mpr (List.length_pos.mpr h.hA0))
    unfold rtBlock at h0
    exact List.noConfusion h0
  rw [fileLines_join _ hflne hlineF]
  refine ⟨rtState A C E Fo B L popt A.length, ?_, ?_, ?_, ?_, ?_, ?_, ?_⟩
  · have hinit0 : ({ label_files := [], energy := [], box := [],
                     species := [], coord := [], force := [] } : SplitOut)
        = rtState A C E Fo B L popt 0 := by
      simp only [rtState]
      rw [SplitOut.mk.injEq]
      refine ⟨by simp, rfl, ?_, rfl, rfl, ?_⟩
      · by_cases hb : popt = str "box" ∧ B.isSome = true
        · rw [if_pos hb]
          rfl
        · rw [if_neg hb]
      · cases Fo <;> rfl
    unfold split_extxyz
    rw [split_frames_flatten _ hWF]
    rw [hinit0]
    exact splitFold_blocks A C E Fo B L popt h A.length (Nat.le_refl _)
  · show ((A.take A.length).map (strJoin (str " "))).map pySplit = A
    rw [List.take_length, List.map_map]
    rw [show A.map (pySplit ∘ strJoin (str " ")) = A.map (fun r => r) from
      List.map_congr_left (fun r hr => pySplit_join r (fun t ht => (h.hArow r hr).2 t ht))]
    simp
  · show ((C.take A.length).map (strJoin (str " "))).map pySplit = C
    rw [← h.hC, List.take_length, List.map_map]
    rw [show C.map (pySplit ∘ strJoin (str " ")) = C.map (fun r => r) from
      List.map_congr_left (fun r hr => pySplit_join r (fun t ht => h.hCrow r hr t ht))]
    simp
  · show ((E.take A.length).map (fun r => r.getD 0 [])).map pySplit = E
    rw [← h.hE, List.take_length, List.map_map]
    have hper : ∀ r ∈ E, pySplit (r.getD 0 []) = r := by
      intro r hr
      obtain ⟨e, he⟩ := List.length_eq_one.mp (h.hErow r hr).1
      obtain ⟨hge, -⟩ := (h.hErow r hr).2 e (by rw [he]; simp)
      rw [he]
      exact pySplit_single e hge.2 hge.1
    rw [show E.map (pySplit ∘ (fun r => r.getD 0 [])) = E.map (fun r => r) from
      List.map_congr_left (fun r hr => hper r hr)]
    simp
  · cases Fo with
    | none => rfl
    | some fs =>
      show ((fs.take A.length).map (strJoin (str " "))).map pySplit = fs
      have hfsl : fs.length = A.length := by
        have h2 := h.hFo rfl
        exact h2
      rw [← hfsl, List.take_length, List.map_map]
      rw [show fs.map (pySplit ∘ strJoin (str " ")) = fs.map (fun r => r) from
        List.map_congr_left (fun r hr =>
          pySplit_join r (fun t ht => h.hFrow rfl r hr t ht))]
      simp
  · by_cases hbox : popt = str "box" ∧ B.isSome = true
    · show (if popt = str "box" ∧ B.isSome = true
          then ((B.getD []).take A.length).map (strJoin (str " ")) else []).map pySplit
        = (if popt = str "box" ∧ B.isSome = true then B.getD [] else [])
      rw [if_pos hbox, if_pos hbox]
      rw [← h.hB hbox.2, List.take_length, List.map_map]
      rw [show (B.getD []).map (pySplit ∘ strJoin (str " "))
          = (B.getD []).map (fun r => r) from
        List.map_congr_left (fun r hr =>
          pySplit_join r (fun t ht => ((h.hBrow hbox.2 r hr).2.1 t ht).1))]
      simp
    · show (if popt = str "box" ∧ B.isSome = true
          then ((B.getD []).take A.length).map (strJoin (str " ")) else []).map pySplit
        = (if popt = str "box" ∧ B.isSome = true then B.getD [] else [])
      rw [if_neg hbox, if_neg hbox]
      rfl
  · intro p hp
    show lookupFile (if A.length = 0 then [] else
        L.map (fun q => (q.1, (q.2.getD []).take A.length))
          ++ [(str "energy", (E.take A.length).map (fun r => r.getD 0 []))]) p.1
      = some (p.2.getD [])
    rw [if_neg (show ¬ A.length = 0 from by
      have := List.length_pos.mpr h.hA0
      omega)]
    unfold lookupFile
    rw [List.find?_append]
    rw [lookup_map_self L (fun q => (q.2.getD []).take A.length) h.hLkeys p hp]
    show some ((p.2.getD []).take A.length) = some (p.2.getD [])
    rw [← (h.hLval p hp).2.1, List.take_length]

/-- C1 counterexample: a declared label value containing a space survives the
conversion only with the space replaced by an underscore, so the parsed label
file holds a_b where the original collection held a b: the round trip does not
reconstruct label values verbatim. -/
theorem C1_counterexample :
    (generate_extxyz_content [[str "H"]] [[str "0", str "0", str "0"]] [[str "-1.5"]]
        none none [(str "tag", some [str "a b"])] []).map
      (fun s => (split_extxyz (fileLines s)).map
        (fun out => lookupFile out.label_files (str "tag")))
      = Except.ok (some (some [str "a_b"])) := by
  decide

/-- C1 witness: the round-trip theorem applied to a concrete one-frame
collection with forces, box and one label. -/
theorem C1_witness :
    RTHyp [[str "H"]] [[str "0", str "1", str "2"]] [[str "-1.5"]]
        (some [[str "3", str "4", str "5"]]) (some [[str "6", str "7", str "8"]])
        [(str "tag", some [str "x"])]
      ∧ (∃ s, generate_extxyz_content [[str "H"]] [[str "0", str "1", str "2"]]
          [[str "-1.5"]] (some [[str "3", str "4", str "5"]])
          (some [[str "6", str "7", str "8"]]) [(str "tag", some [str "x"])]
          (str "box") = Except.ok s ∧
        ∃ out, split_extxyz (fileLines s) = some out ∧
          out.species.map pySplit = [[str "H"]] ∧
          out.coord.map pySplit = [[str "0", str "1", str "2"]] ∧
          out.energy.map pySplit = [[str "-1.5"]] ∧
          out.force.map pySplit
            = (match (some [[str "3", str "4", str "5"]]
                  : Option (List (List Str))) with
               | some fs => fs
               | none => []) ∧
          out.box.map pySplit
            = (if (str "box" : Str) = str "box"
                  ∧ (some [[str "6", str "7", str "8"]]
                      : Option (List (List Str))).isSome = true
               then (some [[str "6", str "7", str "8"]]
                  : Option (List (List Str))).getD []
               else []) ∧
          ∀ p ∈ [(str "tag", some [str "x"])],
            lookupFile out.label_files p.1 = some (p.2.getD [])) :=
  have hR : RTHyp [[str "H"]] [[str "0", str "1", str "2"]] [[str "-1.5"]]
      (some [[str "3", str "4", str "5"]]) (some [[str "6", str "7", str "8"]])
      [(str "tag", some [str "x"])] :=
    ⟨by decide, by decide, by decide, by decide, by decide, by decide, by decide,
     by decide, by decide, by decide, by decide, by decide, by decide, by decide,
     by decide⟩
  ⟨hR, C1_theorem _ _ _ _ _ _ _ hR⟩

end Chushihua
